import Mathlib

/-!
# lammps2trr: a shallow embedding of `src/lammps2trr.c`

The converter reads a LAMMPS text dump twice with `fgets` into a 256 byte line
buffer: a discovery pass that fixes the atom count and the column indices of
`xu yu zu vx vy vz`, and a main pass that converts every frame and hands it to
the TRR writer.

Conventions of the embedding

* the input file is the list of its characters; `fgets` cuts it into chunks of
  at most 255 characters exactly as the C library does, and the line buffer is
  the C string held by the chunk (everything before the first NUL);
* `float`, `double` and `real` values are rationals: all arithmetic is exact;
* `int` values are integers (values outside the range of `int` are not
  modelled);
* uninitialised storage (`index_xuyuzuvxvyvz`, the `malloc`ed buffers) is
  given by parameters that hold its indeterminate contents;
* the TRR file is the list of the frames handed to `gmx_trr_write_frame`, and
  the calls of the TRR library are logged in the order they are made, each
  with the handle it is given; the handle is what `gmx_trr_open` returned, a
  file or `NULL`, which the program does not look at;
* the calls of the libraries return: a run in which `malloc`, `realloc` or a
  call of the TRR library ends the process is not described;
* `printf` output is the list of the messages printed, and what `verbPrintf`
  prints under `--verbose` is left out.

The definitions come first, in the order of the source; the theorems follow
from `Facts about the C library model` on.
-/

namespace Lammps2trr

/-! ## The C library -/

/-- The NUL character that ends a C string. -/
def NUL : Char := Char.ofNat 0

/-- The newline character. -/
def NL : Char := Char.ofNat 10

/-- The blank, the only delimiter handed to `strtok`. -/
def SP : Char := Char.ofNat 32

/-- The C string stored in a buffer: the characters before the first NUL. -/
def cstr (buf : List Char) : List Char :=
  buf.takeWhile (fun c => c != NUL)

/-- The characters `fgets` moves into a buffer that has room for `n` of them:
it stops after a newline, at the end of the file, or when the room is used up.
Returns the chunk and the unread remainder of the file. -/
def fgetsChunk : Nat → List Char → List Char × List Char
  | 0, fp => ([], fp)
  | _ + 1, [] => ([], [])
  | n + 1, c :: fp =>
    if c = NL then ([c], fp)
    else ((fgetsChunk n fp).1.cons c, (fgetsChunk n fp).2)

/-- The call `fgets(line, sizeof(line), fp)` with `char line[256]`: `none` at
the end of the file (the buffer is then left as it was), otherwise the new
buffer contents, as a C string, and the unread remainder of the file. -/
def fgets (fp : List Char) : Option (List Char × List Char) :=
  match fp with
  | [] => none
  | _ :: _ => some (cstr (fgetsChunk 255 fp).1, (fgetsChunk 255 fp).2)

/-- The test `strncmp(s, t, n) == 0`. -/
def strncmp0 : List Char → List Char → Nat → Bool
  | _, _, 0 => true
  | [], [], _ + 1 => true
  | a :: s, b :: t, n + 1 => a == b && strncmp0 s t n
  | _, _, _ + 1 => false

/-- All tokens that `strtok(line, " ")` followed by `strtok(NULL, " ")` until
`NULL` hands out: the maximal runs of characters other than the blank. The
second argument is the token being collected. -/
def strtokAux : List Char → List Char → List (List Char)
  | [], [] => []
  | [], c :: cur => [(c :: cur).reverse]
  | c :: s, cur =>
    if c = SP then
      (match cur with
       | [] => strtokAux s []
       | d :: cur1 => (d :: cur1).reverse :: strtokAux s [])
    else strtokAux s (c :: cur)

/-- The tokens of a line buffer, in order. -/
def strtok (line : List Char) : List (List Char) :=
  strtokAux line []

/-- The C string left in the line buffer once `strtok` has walked through it:
`strtok` overwrites the delimiter that ends the first token with NUL, so what
remains is the leading blanks and the first token. -/
def strtokResidue (line : List Char) : List Char :=
  line.takeWhile (fun c => c == SP) ++
    (line.dropWhile (fun c => c == SP)).takeWhile (fun c => c != SP)

/-- The white space that `strtod` and `sscanf` skip. -/
def isspace (c : Char) : Bool :=
  c.toNat = 32 || (9 ≤ c.toNat && c.toNat ≤ 13)

/-- Decimal digits. -/
def isdigit (c : Char) : Bool :=
  48 ≤ c.toNat && c.toNat ≤ 57

/-- The number written by a run of decimal digits. -/
def natOfDigits (ds : List Char) : Nat :=
  ds.foldl (fun n c => 10 * n + (c.toNat - 48)) 0

/-- An optional sign: whether it is a minus, and what follows it. -/
def readSign (s : List Char) : Bool × List Char :=
  match s with
  | [] => (false, [])
  | c :: t =>
    if c.toNat = 45 then (true, t)
    else if c.toNat = 43 then (false, t)
    else (false, c :: t)

/-- The exponent part of a decimal floating literal, read only when it is
complete (`e` or `E`, an optional sign, at least one digit): the exponent and
what follows it. -/
def readExponent (s : List Char) : Int × List Char :=
  match s with
  | [] => (0, [])
  | c :: t =>
    if c.toNat = 101 || c.toNat = 69 then
      (if ((readSign t).2.takeWhile isdigit).isEmpty then (0, c :: t)
       else
        ((if (readSign t).1 then - (natOfDigits ((readSign t).2.takeWhile isdigit) : Int)
          else (natOfDigits ((readSign t).2.takeWhile isdigit) : Int)),
         (readSign t).2.dropWhile isdigit))
    else (0, c :: t)

/-- Ten to an integer power, as a rational. -/
def pow10 (e : Int) : ℚ :=
  if 0 ≤ e then (10 ^ e.toNat : ℚ) else 1 / (10 ^ (-e).toNat : ℚ)

/-- The function `strtod` on decimal literals, in exact arithmetic: white
space, an optional sign, digits with an optional radix point (at least one
digit), an optional exponent. `none` when no conversion can be made; otherwise
the value and the unread rest. Hexadecimal, `inf` and `nan` spellings have no
rational value and are not modelled. -/
def strtod (s : List Char) : Option (ℚ × List Char) :=
  let s1 := (readSign (s.dropWhile isspace)).2
  let neg := (readSign (s.dropWhile isspace)).1
  let ip := s1.takeWhile isdigit
  let s2 := s1.dropWhile isdigit
  let fr := match s2 with
    | [] => []
    | c :: t => if c.toNat = 46 then t.takeWhile isdigit else []
  let s3 := match s2 with
    | [] => []
    | c :: t => if c.toNat = 46 then t.dropWhile isdigit else c :: t
  if ip.isEmpty && fr.isEmpty then none
  else
    some ((if neg then -1 else 1) * ((natOfDigits (ip ++ fr) : ℚ) / (10 ^ fr.length : ℚ))
            * pow10 (readExponent s3).1,
          (readExponent s3).2)

/-- The function `atof`: `strtod` without the rest, 0 when nothing converts. -/
def atof (s : List Char) : ℚ :=
  match strtod s with
  | none => 0
  | some (q, _) => q

/-- The call `sscanf(line, "%d", &n)`: the integer stored, `none` when the
conversion fails and the variable keeps its value. -/
def sscanf_d (s : List Char) : Option Int :=
  let s1 := (readSign (s.dropWhile isspace)).2
  let neg := (readSign (s.dropWhile isspace)).1
  if (s1.takeWhile isdigit).isEmpty then none
  else some (if neg then - (natOfDigits (s1.takeWhile isdigit) : Int)
             else (natOfDigits (s1.takeWhile isdigit) : Int))

/-- The call `sscanf(line, "%f %f", &a, &b)`: the values stored in `a` and in
`b`; the second conversion is tried only after the first one succeeded. -/
def sscanf_ff (s : List Char) : Option ℚ × Option ℚ :=
  match strtod s with
  | none => (none, none)
  | some (a, rest) =>
    (match strtod rest with
     | none => (some a, none)
     | some (b, _) => (some a, some b))

/-! ## The program state -/

/-- The arguments of one call of `gmx_trr_write_frame`: step, time, lambda,
the box, the atom count, and the `natoms` entries the writer reads from the
position and velocity buffers; the force pointer is `NULL`. -/
structure Frame where
  step : Int
  t : ℚ
  lambda : ℚ
  box : Fin 3 → Fin 3 → ℚ
  natoms : Int
  x : List (Fin 3 → ℚ)
  v : List (Fin 3 → ℚ)
  f : Option (List (Fin 3 → ℚ))

/-- A call of the TRR library. The handle passed to `gmx_trr_write_frame` and
to `gmx_trr_close` is `true` for a file and `false` for `NULL`. -/
inductive TrrCall where
  | gmx_trr_open
  | gmx_trr_write_frame (handle : Bool) (f : Frame)
  | gmx_trr_close (handle : Bool)

/-- What the program is given besides its input file: the `dt` argument, the
indeterminate contents of the uninitialised `index_xuyuzuvxvyvz` and of the
memory `malloc` hands out for `x` and `v`, and whether the call of
`gmx_trr_open` on line 172 returns a file (`true`) or `NULL` (`false`). -/
structure Env where
  dt : ℚ
  index0 : Fin 6 → Int
  malloc_x : Nat → Fin 3 → ℚ
  malloc_v : Nat → Fin 3 → ℚ
  gmx_trr_open : Bool

/-- The variables of `main`, the unread part of the input file `fp`, the
frames handed to the TRR writer so far (`trj_out`), the calls of the TRR
library made so far (`trr`), and the messages printed by `printf`. -/
structure State where
  fp : List Char
  line : List Char
  index_xuyuzuvxvyvz : Fin 6 → Int
  natoms : Int
  step : Int
  x : Nat → Fin 3 → ℚ
  v : Nat → Fin 3 → ℚ
  lammps_box : Fin 6 → ℚ
  box : Fin 3 → Fin 3 → ℚ
  got_natoms : Bool
  got_coordpos : Bool
  trj_out : List Frame
  trr : List TrrCall
  out : List String

/-- The array `strings_xuyuzuvxvyvz`. -/
def strings_xuyuzuvxvyvz (i : Fin 6) : List Char :=
  match i.val with
  | 0 => "xu".toList
  | 1 => "yu".toList
  | 2 => "zu".toList
  | 3 => "vx".toList
  | 4 => "vy".toList
  | _ => "vz".toList

/-- The message of the `else` branch of the main loop. -/
def unexpected : String :=
  "THIS SHOULD NOT HAPPEN! Unexpected data in lammps dump?\n"

/-- The variables as declared at the top of `main` (lines 98 to 106), before
the input file is opened. -/
def init (env : Env) : State where
  fp := []
  line := []
  index_xuyuzuvxvyvz := env.index0
  natoms := 1
  step := 0
  x := env.malloc_x
  v := env.malloc_v
  lammps_box := fun _ => 0
  box := fun _ _ => 0
  got_natoms := false
  got_coordpos := false
  trj_out := []
  trr := []
  out := []

/-- The statement `fgets(line, sizeof(line), fp);` whose result is not
looked at: at the end of the file the buffer keeps its contents. -/
def fgetsLine (st : State) : State :=
  match fgets st.fp with
  | none => st
  | some (l, rest) => { st with line := l, fp := rest }

/-- Assignment to one component of one entry of an `rvec` array. -/
def setCell (a : Nat → Fin 3 → ℚ) (j : Nat) (k : Fin 3) (q : ℚ) : Nat → Fin 3 → ℚ :=
  Function.update a j (Function.update (a j) k q)

/-! ## The discovery pass (lines 117 to 165) -/

/-- The `for` loop of lines 146 to 155 for one header token: every name whose
first two characters the token starts with gets the index `column - 2`. -/
def bindToken (token : List Char) (column : Int) (index : Fin 6 → Int) : Fin 6 → Int :=
  (List.finRange 6).foldl
    (fun idx i =>
      if strncmp0 token (strings_xuyuzuvxvyvz i) 2 then Function.update idx i (column - 2)
      else idx)
    index

/-- The `while (token != NULL)` loop of lines 143 to 159 over the tokens of
the header line, `column` counting them. -/
def bindTokens : List (List Char) → Int → (Fin 6 → Int) → (Fin 6 → Int)
  | [], _, index => index
  | token :: rest, column, index => bindTokens rest (column + 1) (bindToken token column index)

/-- The schema resolver: lines 140 to 159 applied to the line buffer. -/
def resolve (line : List Char) (index : Fin 6 → Int) : Fin 6 → Int :=
  bindTokens (strtok line) 0 index

/-- The body of the discovery loop (lines 126 to 162) for the line that the
loop condition has just read. -/
def discoverStep (env : Env) (st : State) : State :=
  if strncmp0 st.line "ITEM".toList 4 then
    if strncmp0 st.line "ITEM: NUMBER OF ATOMS".toList 21 then
      { fgetsLine st with
        natoms := ((sscanf_d (fgetsLine st).line).getD st.natoms)
        x := env.malloc_x
        v := env.malloc_v
        got_natoms := true }
    else if strncmp0 st.line "ITEM: ATOMS".toList 11 then
      { st with
        index_xuyuzuvxvyvz := resolve st.line st.index_xuyuzuvxvyvz
        line := strtokResidue st.line
        got_coordpos := true }
    else st
  else st

/-- The discovery loop `while (fgets(line, sizeof(line), fp))` with its
`break` once both the atom count and the columns are known. Every turn reads
at least one character, so `fp.length` turns are enough. -/
def discoverLoop (env : Env) : Nat → State → State
  | 0, st => st
  | n + 1, st =>
    match fgets st.fp with
    | none => st
    | some (l, rest) =>
      if (discoverStep env { st with line := l, fp := rest }).got_natoms
          && (discoverStep env { st with line := l, fp := rest }).got_coordpos then
        discoverStep env { st with line := l, fp := rest }
      else discoverLoop env n (discoverStep env { st with line := l, fp := rest })

/-! ## The main pass (lines 176 to 250) -/

/-- The two atom buffers `x` and `v`. -/
structure Buffers where
  x : Nat → Fin 3 → ℚ
  v : Nat → Fin 3 → ℚ

/-- The `switch` of lines 223 to 230: the token goes to the slot of field `i`
of atom `j`, positions shifted by the lower box bound and divided by 10,
velocities multiplied by 100. -/
def storeToken (lammps_box : Fin 6 → ℚ) (j : Nat) (token : List Char) (i : Fin 6)
    (b : Buffers) : Buffers :=
  match i.val with
  | 0 => { b with x := setCell b.x j 0 ((atof token - lammps_box 0) / 10) }
  | 1 => { b with x := setCell b.x j 1 ((atof token - lammps_box 2) / 10) }
  | 2 => { b with x := setCell b.x j 2 ((atof token - lammps_box 4) / 10) }
  | 3 => { b with v := setCell b.v j 0 (atof token * 100) }
  | 4 => { b with v := setCell b.v j 1 (atof token * 100) }
  | 5 => { b with v := setCell b.v j 2 (atof token * 100) }
  | _ => b

/-- The `for` loop of lines 217 to 232 for one token of a data line: the
token is stored for every field whose index is the current column. -/
def scanToken (index : Fin 6 → Int) (lammps_box : Fin 6 → ℚ) (j : Nat)
    (token : List Char) (column : Int) (b : Buffers) : Buffers :=
  (List.finRange 6).foldl
    (fun s i => if column = index i then storeToken lammps_box j token i s else s)
    b

/-- The `while (token != NULL)` loop of lines 214 to 236 over the tokens of a
data line, `column` counting them. -/
def scanTokens (index : Fin 6 → Int) (lammps_box : Fin 6 → ℚ) (j : Nat) :
    List (List Char) → Int → Buffers → Buffers
  | [], _, b => b
  | token :: rest, column, b =>
    scanTokens index lammps_box j rest (column + 1)
      (scanToken index lammps_box j token column b)

/-- Lines 211 to 237 for atom `j`, once `fgets` has filled the line buffer:
the tokens are scanned, and `strtok` leaves its residue in the buffer. -/
def scanLine (j : Nat) (st : State) : State :=
  { st with
    x := (scanTokens st.index_xuyuzuvxvyvz st.lammps_box j (strtok st.line) 0 ⟨st.x, st.v⟩).x
    v := (scanTokens st.index_xuyuzuvxvyvz st.lammps_box j (strtok st.line) 0 ⟨st.x, st.v⟩).v
    line := strtokResidue st.line
    got_coordpos := true }

/-- The body of the loop over the atoms (lines 210 to 237) for atom `j`. -/
def readAtom (j : Nat) (st : State) : State :=
  scanLine j (fgetsLine st)

/-- The loop `for (int j=0; j<natoms; j++)` of line 208, with `n` turns left
and `j` the next atom. -/
def readAtoms : Nat → Nat → State → State
  | 0, _, st => st
  | n + 1, j, st => readAtoms n (j + 1) (readAtom j st)

/-- The frame handed to `gmx_trr_write_frame` on line 241. -/
def currentFrame (env : Env) (st : State) : Frame where
  step := st.step
  t := (st.step : ℚ) * env.dt
  lambda := 0
  box := st.box
  natoms := st.natoms
  x := (List.range st.natoms.toNat).map st.x
  v := (List.range st.natoms.toNat).map st.v
  f := none

/-- Line 241: `gmx_trr_write_frame` is called, as a statement, with the handle
that `gmx_trr_open` returned and the frame, which is appended to the TRR
file. -/
def writeFrame (env : Env) (st : State) : State :=
  { st with
    trj_out := st.trj_out ++ [currentFrame env st]
    trr := st.trr ++ [TrrCall.gmx_trr_write_frame env.gmx_trr_open (currentFrame env st)] }

/-- One call `sscanf(line, "%f %f", &lammps_box[a], &lammps_box[b])`. -/
def scanBounds (line : List Char) (a b : Fin 6) (lb : Fin 6 → ℚ) : Fin 6 → ℚ :=
  match sscanf_ff line with
  | (none, _) => lb
  | (some lo, none) => Function.update lb a lo
  | (some lo, some hi) => Function.update (Function.update lb a lo) b hi

/-- Lines 202 to 204: the diagonal of the box from the bounds. -/
def convertBox (lb : Fin 6 → ℚ) (box : Fin 3 → Fin 3 → ℚ) : Fin 3 → Fin 3 → ℚ :=
  Function.update
    (Function.update
      (Function.update box 0 (Function.update (box 0) 0 ((lb 1 - lb 0) / 10)))
      1 (Function.update (box 1) 1 ((lb 3 - lb 2) / 10)))
    2 (Function.update (box 2) 2 ((lb 5 - lb 4) / 10))

/-- The box-bounds branch, lines 192 to 204: three times a line is read and
scanned for a lower and an upper bound, then the diagonal of the box is set. -/
def readBox (st : State) : State :=
  let s1 := fgetsLine st
  let b1 := scanBounds s1.line 0 1 s1.lammps_box
  let s2 := fgetsLine s1
  let b2 := scanBounds s2.line 2 3 b1
  let s3 := fgetsLine s2
  let b3 := scanBounds s3.line 4 5 b2
  { s3 with lammps_box := b3, box := convertBox b3 s3.box }

/-- The body of the main loop (lines 178 to 247) for the line that the loop
condition has just read. -/
def mainStep (env : Env) (st : State) : State :=
  if strncmp0 st.line "ITEM".toList 4 then
    if strncmp0 st.line "ITEM: NUMBER OF ATOMS".toList 21 then
      fgetsLine st
    else if strncmp0 st.line "ITEM: TIMESTEP".toList 14 then
      { fgetsLine st with step := (sscanf_d (fgetsLine st).line).getD st.step }
    else if strncmp0 st.line "ITEM: BOX BOUNDS pp pp pp".toList 25 then
      readBox st
    else if strncmp0 st.line "ITEM: ATOMS".toList 11 then
      writeFrame env (readAtoms st.natoms.toNat 0 st)
    else st
  else { st with out := st.out ++ [unexpected] }

/-- The main loop `while (fgets(line, sizeof(line), fp))`. Every turn reads at
least one character, so `fp.length` turns are enough. -/
def mainLoop (env : Env) : Nat → State → State
  | 0, st => st
  | n + 1, st =>
    match fgets st.fp with
    | none => st
    | some (l, rest) => mainLoop env n (mainStep env { st with line := l, fp := rest })

/-- The main loop run on the unread part of the file until `fgets` fails. -/
def run (env : Env) (st : State) : State :=
  mainLoop env st.fp.length st

/-- The discovery pass on a file: the variables after the loop of lines 122
to 165. -/
def discover (env : Env) (file : List Char) : State :=
  discoverLoop env file.length { init env with fp := file }

/-- The main pass on a file: `rewind`, then the loop of lines 176 to 250. -/
def mainPass (env : Env) (file : List Char) : State :=
  run env { discover env file with fp := file }

/-- Line 172: `gmx_trr_open` is called; the handle it returns is stored
without a test. -/
def trrOpen (st : State) : State :=
  { st with trr := st.trr ++ [TrrCall.gmx_trr_open] }

/-- Line 257: `gmx_trr_close` is called with the handle. -/
def trrClose (env : Env) (st : State) : State :=
  { st with trr := st.trr ++ [TrrCall.gmx_trr_close env.gmx_trr_open] }

/-- The function `main` from line 98 on: the value it returns and the final
state. The input file is `none` when `fopen` fails; then `main` returns 1 on
line 114, before anything is read and before `gmx_trr_open`. Otherwise the
discovery loop runs, the file is rewound, `gmx_trr_open` is called, the main
loop runs, `gmx_trr_close` is called and `main` returns 0 on line 259. -/
def main (env : Env) (infile : Option (List Char)) : Int × State :=
  match infile with
  | none => (1, init env)
  | some file =>
    (0, trrClose env (run env (trrOpen { discover env file with fp := file })))

/-- The frames appended to the TRR file by a run, in order. -/
def framesWritten (env : Env) (file : List Char) : List Frame :=
  (mainPass env file).trj_out

/-! ## Inputs described by the specification -/

/-- The entry of `index_xuyuzuvxvyvz` for the position along axis `k`. -/
def posField (k : Fin 3) : Fin 6 := ⟨k.val, by omega⟩

/-- The entry of `index_xuyuzuvxvyvz` for the velocity along axis `k`. -/
def velField (k : Fin 3) : Fin 6 := ⟨k.val + 3, by omega⟩

/-- The entry of `lammps_box` for the lower bound of axis `k`. -/
def lowerBound (k : Fin 3) : Fin 6 := ⟨2 * k.val, by omega⟩

/-- The entry of `lammps_box` for the upper bound of axis `k`. -/
def upperBound (k : Fin 3) : Fin 6 := ⟨2 * k.val + 1, by omega⟩

/-- The token of a data line that stands at column `c`, when the line has
one there. -/
def tokenAt (toks : List (List Char)) (c : Int) : Option (List Char) :=
  if 0 ≤ c then toks[c.toNat]? else none

/-- A header line written from its column names: the marker `ITEM: ATOMS`,
then every name preceded by one blank. The newline that ends the line in a
file, not being a blank, is part of the last name. -/
def headerLine (ts : List (List Char)) : List Char :=
  "ITEM: ATOMS".toList ++ (ts.map (fun t => SP :: t)).flatten

/-- The header line of the specification, as `fgets` delivers it. -/
def header8 : List Char :=
  "ITEM: ATOMS id type xu yu zu vx vy vz\n".toList

/-- The variables that only the discovery pass, the timestep branch, the box
branch and the writer touch have the same values in both states. -/
def SameVars (r st : State) : Prop :=
  r.index_xuyuzuvxvyvz = st.index_xuyuzuvxvyvz ∧ r.natoms = st.natoms ∧ r.step = st.step ∧
  r.lammps_box = st.lammps_box ∧ r.box = st.box ∧ r.got_natoms = st.got_natoms ∧
  r.trj_out = st.trj_out ∧ r.out = st.out

/-- The variables that the discovery pass leaves alone have the same values in
both states. -/
def SameMain (r st : State) : Prop :=
  r.step = st.step ∧ r.lammps_box = st.lammps_box ∧ r.box = st.box ∧
  r.trj_out = st.trj_out ∧ r.out = st.out

/-! ## Example inputs -/

/-- An environment for the examples: the default `dt` of 0.001, storage that
holds zeros, a TRR file that can be opened. -/
def env0 : Env where
  dt := 1 / 1000
  index0 := fun _ => 0
  malloc_x := fun _ _ => 0
  malloc_v := fun _ _ => 0
  gmx_trr_open := true

/-- The end-to-end scenario of the specification: one frame, two atoms. -/
def dump1 : List Char :=
  ("ITEM: TIMESTEP\n100\nITEM: NUMBER OF ATOMS\n2\nITEM: BOX BOUNDS pp pp pp\n" ++
   "0 10\n0 10\n0 10\nITEM: ATOMS id type xu yu zu vx vy vz\n" ++
   "1 1 1.0 2.0 3.0 0.1 0.2 0.3\n2 1 9.0 8.0 7.0 -0.1 -0.2 -0.3\n").toList

/-- A dump whose frames have no atom. -/
def dumpEmpty : List Char :=
  ("ITEM: TIMESTEP\n7\nITEM: NUMBER OF ATOMS\n0\nITEM: BOX BOUNDS pp pp pp\n" ++
   "0 10\n0 10\n0 10\nITEM: ATOMS id type xu yu zu vx vy vz\n" ++
   "ITEM: TIMESTEP\n8\nITEM: NUMBER OF ATOMS\n0\nITEM: BOX BOUNDS pp pp pp\n" ++
   "0 10\n0 10\n0 10\nITEM: ATOMS id type xu yu zu vx vy vz\n").toList

/-- A dump with a section marker the converter does not know between two
lines of stray text. -/
def dumpStray : List Char :=
  "stray\nITEM: FOO\nmore\n".toList

/-! ## Well-formed dumps -/

/-- A line of a text file: its characters, then the newline. -/
def textLine (c : List Char) : List Char :=
  c ++ [NL]

/-- The line buffer after `fgets` has read the line `c` whole. -/
def buf (c : List Char) : List Char :=
  cstr (c ++ [NL])

/-- A line that fits the line buffer with its newline: `fgets` reads it in
one call. -/
def FitsBuffer (c : List Char) : Prop :=
  NL ∉ c ∧ c.length ≤ 254

instance (c : List Char) : Decidable (FitsBuffer c) := by
  unfold FitsBuffer
  infer_instance

/-- A line with two numbers: both conversions of `sscanf(line, "%f %f", ...)`
succeed on it. -/
def TwoNumbers (c : List Char) : Prop :=
  (sscanf_ff (buf c)).1.isSome = true ∧ (sscanf_ff (buf c)).2.isSome = true

instance (c : List Char) : Decidable (TwoNumbers c) := by
  unfold TwoNumbers
  infer_instance

/-- The order of the timestep (t), atom-count (c) and box-bounds (b) sections
of a frame; the atom data come last. -/
inductive Order where
  | tcb
  | tbc
  | ctb
  | cbt
  | btc
  | bct

/-- One frame of a dump: the order of its first three sections, the line of
the timestep section, the line of the atom-count section, the three lines of
the box-bounds section, what follows `ITEM: ATOMS` on the marker line of the
atom data, and the data lines. -/
structure DumpFrame where
  order : Order
  stepLine : List Char
  countLine : List Char
  xBounds : List Char
  yBounds : List Char
  zBounds : List Char
  columns : List Char
  atoms : List (List Char)

namespace DumpFrame

/-- The timestep section of a frame. -/
def timestepText (fr : DumpFrame) : List Char :=
  textLine "ITEM: TIMESTEP".toList ++ textLine fr.stepLine

/-- The atom-count section of a frame. -/
def countText (fr : DumpFrame) : List Char :=
  textLine "ITEM: NUMBER OF ATOMS".toList ++ textLine fr.countLine

/-- The box-bounds section of a frame. -/
def boundsText (fr : DumpFrame) : List Char :=
  textLine "ITEM: BOX BOUNDS pp pp pp".toList ++
    (textLine fr.xBounds ++ (textLine fr.yBounds ++ textLine fr.zBounds))

/-- The marker line of the atom data, without its newline. -/
def atomsMarker (fr : DumpFrame) : List Char :=
  "ITEM: ATOMS".toList ++ fr.columns

/-- The atom-data section of a frame. -/
def atomsText (fr : DumpFrame) : List Char :=
  textLine fr.atomsMarker ++ (fr.atoms.map textLine).flatten

/-- The text of a frame. -/
def text (fr : DumpFrame) : List Char :=
  match fr.order with
  | .tcb => fr.timestepText ++ (fr.countText ++ (fr.boundsText ++ fr.atomsText))
  | .tbc => fr.timestepText ++ (fr.boundsText ++ (fr.countText ++ fr.atomsText))
  | .ctb => fr.countText ++ (fr.timestepText ++ (fr.boundsText ++ fr.atomsText))
  | .cbt => fr.countText ++ (fr.boundsText ++ (fr.timestepText ++ fr.atomsText))
  | .btc => fr.boundsText ++ (fr.timestepText ++ (fr.countText ++ fr.atomsText))
  | .bct => fr.boundsText ++ (fr.countText ++ (fr.timestepText ++ fr.atomsText))

/-- The step index read from the timestep section. -/
def step (fr : DumpFrame) : Int :=
  (sscanf_d (buf fr.stepLine)).getD 0

/-- The six bounds read from the box-bounds section: xmin, xmax, ymin, ymax,
zmin, zmax. -/
def bounds (fr : DumpFrame) : Fin 6 → ℚ :=
  scanBounds (buf fr.zBounds) 4 5
    (scanBounds (buf fr.yBounds) 2 3 (scanBounds (buf fr.xBounds) 0 1 (fun _ => 0)))

/-- A well-formed frame of `N` atoms: every line fits the line buffer, the
timestep line holds an integer, the atom-count line holds `N`, each of the
three bound lines holds two numbers, and there are `N` data lines. -/
def WellFormed (N : Nat) (fr : DumpFrame) : Prop :=
  (FitsBuffer fr.stepLine ∧ (sscanf_d (buf fr.stepLine)).isSome = true) ∧
  (FitsBuffer fr.countLine ∧ sscanf_d (buf fr.countLine) = some (N : Int)) ∧
  (FitsBuffer fr.xBounds ∧ TwoNumbers fr.xBounds) ∧
  (FitsBuffer fr.yBounds ∧ TwoNumbers fr.yBounds) ∧
  (FitsBuffer fr.zBounds ∧ TwoNumbers fr.zBounds) ∧
  FitsBuffer fr.atomsMarker ∧
  (∀ l ∈ fr.atoms, FitsBuffer l) ∧ fr.atoms.length = N

instance (N : Nat) (fr : DumpFrame) : Decidable (WellFormed N fr) := by
  unfold WellFormed
  infer_instance

end DumpFrame

/-- The text of a dump: its frames one after the other. -/
def dumpText (frames : List DumpFrame) : List Char :=
  (frames.map DumpFrame.text).flatten

/-- The loop over the atoms when the lines it reads into the buffer are
`bufs`: line after line, `scanLine` as in `readAtom`. -/
def scanLines : List (List Char) → Nat → State → State
  | [], _, st => st
  | b :: bs, j, st => scanLines bs (j + 1) (scanLine j { st with line := b })

/-- The variables when the main loop is about to write a well-formed frame
that is followed by `rest`: step, bounds and box are those of the frame and
the atoms have been scanned. -/
def beforeWrite (fr : DumpFrame) (rest : List Char) (st : State) : State :=
  scanLines (fr.atoms.map buf) 0
    { st with
      line := buf fr.atomsMarker
      fp := rest
      step := (sscanf_d (buf fr.stepLine)).getD st.step
      lammps_box := fr.bounds
      box := convertBox fr.bounds st.box }

/-- The variables after the main loop has gone through a well-formed frame
that is followed by `rest`: the frame has been written. -/
def frameEffect (env : Env) (fr : DumpFrame) (rest : List Char) (st : State) : State :=
  writeFrame env (beforeWrite fr rest st)

/-- The variables after the main loop has gone through the frames of a
well-formed dump. -/
def afterFrames (env : Env) : List DumpFrame → State → State
  | [], st => st
  | fr :: frs, st => afterFrames env frs (frameEffect env fr (dumpText frs) st)

/-- The column indices that the discovery pass finds in a well-formed dump:
those resolved from the marker line of the atom data of the first frame. -/
def dumpIndex (env : Env) (frames : List DumpFrame) : Fin 6 → Int :=
  match frames with
  | [] => env.index0
  | fr :: _ => resolve (buf fr.atomsMarker) env.index0

/-- The discovery loop run on the unread part of the file. -/
def discoverRun (env : Env) (st : State) : State :=
  discoverLoop env st.fp.length st

/-- The frame of the end-to-end scenario of the specification. -/
def frame3a : DumpFrame where
  order := Order.tcb
  stepLine := "100".toList
  countLine := "2".toList
  xBounds := "0 10".toList
  yBounds := "0 10".toList
  zBounds := "0 10".toList
  columns := " id type xu yu zu vx vy vz".toList
  atoms := ["1 1 1.0 2.0 3.0 0.1 0.2 0.3".toList, "2 1 9.0 8.0 7.0 -0.1 -0.2 -0.3".toList]

/-- A frame whose sections stand in another order, whose box does not begin
at the origin, and whose second data line stops after the positions. -/
def frame3b : DumpFrame where
  order := Order.bct
  stepLine := "200".toList
  countLine := "2".toList
  xBounds := "-5.0e+00 1.5e+01".toList
  yBounds := "1 11".toList
  zBounds := "2 22".toList
  columns := "".toList
  atoms := ["1 1 2.0 3.0 4.0 0.5 0.5 0.5".toList, "2 1 8.0 7.0 6.0".toList]

/-- A dump of two frames with two atoms. -/
def frames3 : List DumpFrame :=
  [frame3a, frame3b]

/-- The line buffer in which the loop over the atoms scans the line of atom
`a`: what `fgets` leaves in it once the atoms before `a` have been read. When
the file ends before, this is what the buffer held already. -/
def atomLine (a : Nat) (st : State) : List Char :=
  (fgetsLine (readAtoms a 0 st)).line

/-- The unread rest of the file after one call of `fgets`. -/
def fgetsRest (fp : List Char) : List Char :=
  match fgets fp with
  | none => fp
  | some (_, rest) => rest

/-- The unread rest of the file after `n` calls of `fgets`. -/
def skipLines : Nat → List Char → List Char
  | 0, fp => fp
  | n + 1, fp => skipLines n (fgetsRest fp)

/-- A dump whose second frame declares two atoms and another column order,
after a first frame of one atom. -/
def dumpVary : List Char :=
  ("ITEM: TIMESTEP\n0\nITEM: NUMBER OF ATOMS\n1\nITEM: BOX BOUNDS pp pp pp\n" ++
   "0 10\n0 10\n0 10\nITEM: ATOMS id type xu yu zu vx vy vz\n" ++
   "1 1 1.0 2.0 3.0 0.1 0.2 0.3\n" ++
   "ITEM: TIMESTEP\n5\nITEM: NUMBER OF ATOMS\n2\nITEM: BOX BOUNDS pp pp pp\n" ++
   "0 10\n0 10\n0 10\nITEM: ATOMS id type vx vy vz xu yu zu\n" ++
   "1 1 0.1 0.2 0.3 4.0 5.0 6.0\n2 1 0.1 0.2 0.3 7.0 8.0 9.0\n").toList

/-- A dump of one frame whose box is not periodic: the marker of the
box-bounds section ends in `ff ff ff`. -/
def dumpFF : List Char :=
  ("ITEM: TIMESTEP\n0\nITEM: NUMBER OF ATOMS\n1\nITEM: BOX BOUNDS ff ff ff\n" ++
   "5 15\n5 15\n5 15\nITEM: ATOMS id type xu yu zu vx vy vz\n" ++
   "1 1 6.0 7.0 8.0 0.1 0.2 0.3\n").toList

/-- A dump of two frames: the box of the first is periodic, with the bounds 5
and 15, the box of the second is triclinic, with other bounds. -/
def dumpTilt : List Char :=
  ("ITEM: TIMESTEP\n0\nITEM: NUMBER OF ATOMS\n1\nITEM: BOX BOUNDS pp pp pp\n" ++
   "5 15\n5 15\n5 15\nITEM: ATOMS id type xu yu zu vx vy vz\n" ++
   "1 1 6.0 7.0 8.0 0.1 0.2 0.3\n" ++
   "ITEM: TIMESTEP\n1\nITEM: NUMBER OF ATOMS\n1\nITEM: BOX BOUNDS xy xz yz pp pp pp\n" ++
   "0 40 0\n0 40 0\n0 40 0\nITEM: ATOMS id type xu yu zu vx vy vz\n" ++
   "1 1 9.0 9.0 9.0 0.1 0.2 0.3\n").toList

/-- The keys with which `argp_parse` calls `parse_opt`: the four options of
the table `options`, a positional argument, the end of the arguments, and the
other keys of the library (`ARGP_KEY_INIT`, `ARGP_KEY_NO_ARGS`,
`ARGP_KEY_SUCCESS`, `ARGP_KEY_FINI`). -/
inductive Key where
  | v
  | f
  | o
  | d
  | ARGP_KEY_ARG
  | ARGP_KEY_END
  | other
deriving DecidableEq

/-- The `struct arguments` of lines 31 to 37. -/
structure arguments where
  verbosity : Bool
  infile : List Char
  outfile : List Char
  dt : ℚ

/-- How one call of `parse_opt` ends: it returns 0 with the arguments as they
now are, it returns `ARGP_ERR_UNKNOWN`, or it does not return because
`argp_usage` has ended the process. -/
inductive Parsed where
  | ok (a : arguments)
  | ARGP_ERR_UNKNOWN
  | argp_usage

/-- The function `parse_opt` (lines 39 to 77); `arg_num` is
`state->arg_num`, an unsigned number. -/
def parse_opt (key : Key) (arg : List Char) (arg_num : Nat) (a : arguments) : Parsed :=
  match key with
  | Key.v => Parsed.ok { a with verbosity := true }
  | Key.f => Parsed.ok { a with infile := arg }
  | Key.o => Parsed.ok { a with outfile := arg }
  | Key.d => Parsed.ok { a with dt := atof arg }
  | Key.ARGP_KEY_ARG => if arg_num ≥ 0 then Parsed.argp_usage else Parsed.ok a
  | Key.ARGP_KEY_END => if arg_num < 0 then Parsed.argp_usage else Parsed.ok a
  | Key.other => Parsed.ARGP_ERR_UNKNOWN

/-- The call `argp_parse(&argp, argc, argv, 0, 0, &arguments)` of line 93 as
the program takes part in it: the library calls `parse_opt` a number of
times, each time with a key, an argument and a value of `state->arg_num` that
it makes from the command line, and these calls are the list given here. A
call that returns `ARGP_ERR_UNKNOWN`, which `parse_opt` does only for the
library's own keys, is passed over. The result `none` says that `argp_usage`
has ended the process inside a call. -/
def argp_parse : List (Key × List Char × Nat) → arguments → Option arguments
  | [], a => some a
  | (key, arg, arg_num) :: rest, a =>
    match parse_opt key arg arg_num a with
    | Parsed.ok b => argp_parse rest b
    | Parsed.ARGP_ERR_UNKNOWN => argp_parse rest a
    | Parsed.argp_usage => none

/-- The status with which `argp_usage` ends the process, the library's
`argp_err_exit_status`, which the program leaves at `EX_USAGE`. -/
def EX_USAGE : Int := 64

/-- The default values of lines 87 to 90. -/
def defaults : arguments where
  verbosity := false
  infile := "traj.dump".toList
  outfile := "traj.trr".toList
  dt := 1 / 1000

/-- The process from line 81 on: the exit status and the final state, for the
calls of `parse_opt` that the library makes. `files name` is the contents of
the file that `fopen(name, "r")` opens, or `none` when it cannot be opened;
the `dt` of `env` is replaced by the one of the command line. When
`argp_usage` ends the process nothing has been read or written. -/
def lammps2trr (env : Env) (files : List Char → Option (List Char))
    (calls : List (Key × List Char × Nat)) : Int × State :=
  match argp_parse calls defaults with
  | none => (EX_USAGE, init env)
  | some a => main { env with dt := a.dt } (files a.infile)

/-- A directory that holds `traj.dump`, with the contents `dump1`, and no
other file. -/
def files1 (name : List Char) : Option (List Char) :=
  if name = "traj.dump".toList then some dump1 else none

/-- The environment `env0` with a TRR file that cannot be opened. -/
def envNull : Env :=
  { env0 with gmx_trr_open := false }

/-- The state with the calls `p` of the TRR library put before the ones that
are logged. -/
def logged (p : List TrrCall) (st : State) : State :=
  { st with trr := p ++ st.trr }

/-- A frame of two atoms whose first data line has 280 characters before its
newline: after the eight columns of the other examples comes a column `q`
with 250 digits after the point. -/
def frameLong : DumpFrame where
  order := Order.tcb
  stepLine := "100".toList
  countLine := "2".toList
  xBounds := "0 10".toList
  yBounds := "0 10".toList
  zBounds := "0 10".toList
  columns := " id type xu yu zu vx vy vz q".toList
  atoms := ["1 1 1.0 2.0 3.0 0.1 0.2 0.3 0.".toList ++ List.replicate 250 '0',
    "2 1 9.0 8.0 7.0 -0.1 -0.2 -0.3 0.5".toList]

/-- The main loop on the dump of `frameLong` when it has read the marker line
of the atom data: the two data lines are still to be read. -/
def stLong : State :=
  { discover env0 (dumpText [frameLong]) with
    line := buf frameLong.atomsMarker
    fp := (frameLong.atoms.map textLine).flatten }

/-! ## Facts about the C library model -/

theorem finRange_six : List.finRange 6 = [0, 1, 2, 3, 4, 5] := by rfl

theorem strtokAux_append (t : List Char) (h : SP ∉ t) (rest cur : List Char) :
    strtokAux (t ++ rest) cur = strtokAux rest (t.reverse ++ cur) := by
  induction t generalizing cur with
  | nil => simp
  | cons c t ih =>
    have hc : c ≠ SP := fun e => h (by simp [e])
    have ht : SP ∉ t := fun e => h (by simp [e])
    simp [strtokAux, hc, ih ht]

theorem strtokAux_blank (s cur : List Char) :
    strtokAux (SP :: s) cur
      = if cur = [] then strtokAux s [] else cur.reverse :: strtokAux s [] := by
  cases cur <;> simp [strtokAux]

/-- The tokens of a run of tokens each preceded by one blank. -/
theorem strtokAux_tokens (ts : List (List Char)) (h : ∀ t ∈ ts, t ≠ [] ∧ SP ∉ t)
    (cur : List Char) (hcur : cur ≠ []) :
    strtokAux (ts.map (fun t => SP :: t)).flatten cur = cur.reverse :: ts := by
  induction ts generalizing cur with
  | nil => cases cur with
    | nil => exact absurd rfl hcur
    | cons c cur => simp [strtokAux]
  | cons t ts ih =>
    have h1 := h t (by simp)
    have h2 : ∀ u ∈ ts, u ≠ [] ∧ SP ∉ u := fun u hu => h u (by simp [hu])
    simp only [List.map_cons, List.flatten_cons, List.cons_append]
    rw [strtokAux_blank, if_neg hcur, strtokAux_append t h1.2]
    have : t.reverse ++ [] ≠ [] := by simpa using h1.1
    rw [ih h2 _ this]
    simp

theorem strtok_headerLine (ts : List (List Char)) (h : ∀ t ∈ ts, t ≠ [] ∧ SP ∉ t) :
    strtok (headerLine ts) = "ITEM:".toList :: "ATOMS".toList :: ts := by
  have e : headerLine ts
      = "ITEM:".toList ++ (SP :: ("ATOMS".toList ++ (ts.map (fun t => SP :: t)).flatten)) := by
    simp [headerLine, SP]
  rw [strtok, e, strtokAux_append _ (by decide), strtokAux_blank, if_neg (by decide),
    strtokAux_append _ (by decide)]
  cases ts with
  | nil => rfl
  | cons t ts =>
    rw [strtokAux_tokens _ h _ (by decide)]
    rfl

theorem bindToken_apply (token : List Char) (column : Int) (index : Fin 6 → Int) (f : Fin 6) :
    bindToken token column index f
      = if strncmp0 token (strings_xuyuzuvxvyvz f) 2 then column - 2 else index f := by
  unfold bindToken
  rw [finRange_six]
  simp only [List.foldl_cons, List.foldl_nil]
  fin_cases f <;>
    (by_cases h0 : strncmp0 token (strings_xuyuzuvxvyvz 0) 2 = true <;>
     by_cases h1 : strncmp0 token (strings_xuyuzuvxvyvz 1) 2 = true <;>
     by_cases h2 : strncmp0 token (strings_xuyuzuvxvyvz 2) 2 = true <;>
     by_cases h3 : strncmp0 token (strings_xuyuzuvxvyvz 3) 2 = true <;>
     by_cases h4 : strncmp0 token (strings_xuyuzuvxvyvz 4) 2 = true <;>
     by_cases h5 : strncmp0 token (strings_xuyuzuvxvyvz 5) 2 = true <;>
     simp [h0, h1, h2, h3, h4, h5, Function.update])

theorem bindTokens_none (f : Fin 6) (toks : List (List Char)) (column : Int)
    (index : Fin 6 → Int)
    (h : ∀ t ∈ toks, strncmp0 t (strings_xuyuzuvxvyvz f) 2 = false) :
    bindTokens toks column index f = index f := by
  induction toks generalizing column index with
  | nil => rfl
  | cons t toks ih =>
    rw [bindTokens, ih _ _ (fun u hu => h u (by simp [hu])), bindToken_apply,
      h t (by simp)]
    simp

theorem bindTokens_last (f : Fin 6) (toks : List (List Char)) (column : Int)
    (index : Fin 6 → Int) (i : Nat) (hi : i < toks.length)
    (hm : strncmp0 (toks.get ⟨i, hi⟩) (strings_xuyuzuvxvyvz f) 2 = true)
    (hlast : ∀ k (hk : k < toks.length), i < k →
      strncmp0 (toks.get ⟨k, hk⟩) (strings_xuyuzuvxvyvz f) 2 = false) :
    bindTokens toks column index f = column + i - 2 := by
  induction toks generalizing column index i with
  | nil => simp at hi
  | cons t toks ih =>
    rw [bindTokens]
    cases i with
    | zero =>
      rw [bindTokens_none, bindToken_apply]
      · simp at hm
        simp [hm]
      · intro u hu
        obtain ⟨k, hk, rfl⟩ := List.getElem_of_mem hu
        have := hlast (k + 1) (by simpa using hk) (by omega)
        simpa using this
    | succ i =>
      have hi2 : i < toks.length := by simpa using hi
      rw [ih (column + 1) _ i hi2 (by simpa using hm)
        (fun k hk hik => by
          have := hlast (k + 1) (by simpa using hk) (by omega)
          simpa using this)]
      push_cast
      ring

theorem strncmp0_two (t : List Char) (f : Fin 6) :
    strncmp0 t (strings_xuyuzuvxvyvz f) 2 = true ↔ t.take 2 = strings_xuyuzuvxvyvz f := by
  fin_cases f <;>
    (rcases t with _ | ⟨a, _ | ⟨b, t⟩⟩ <;>
      simp [strncmp0, strings_xuyuzuvxvyvz])

/-! ## The schema resolver -/

theorem strtok_header8 :
    strtok header8 = ["ITEM:".toList, "ATOMS".toList, "id".toList, "type".toList,
      "xu".toList, "yu".toList, "zu".toList, "vx".toList, "vy".toList, "vz\n".toList] := by
  decide

/-- C6, as the code has it: on the header line
`ITEM: ATOMS id type xu yu zu vx vy vz` the resolver yields the indices
2, 3, 4, 5, 6, 7 for xu, yu, zu, vx, vy, vz, whatever the array held before:
the two tokens left out of the count are the marker tokens `ITEM:` and
`ATOMS`, so `id` and `type` are columns 0 and 1, as in the data lines. -/
theorem resolve_header8 (index : Fin 6 → Int) :
    (List.finRange 6).map (resolve header8 index) = [2, 3, 4, 5, 6, 7] := by
  simp [resolve, strtok_header8, bindTokens, bindToken_apply, finRange_six, strncmp0,
    strings_xuyuzuvxvyvz]

/-- C6, as stated, fails: the resolved indices on the header line of the
specification are not 0, 1, 2, 3, 4, 5. -/
theorem resolve_header8_not_zero_based :
    ¬ ((List.finRange 6).map (resolve header8 (fun _ => 0)) = [0, 1, 2, 3, 4, 5]) := by
  decide

/-- C7: for a header line `ITEM: ATOMS t0 t1 ... tk` and a field `f` of
xu, yu, zu, vx, vy, vz, the resolver binds `f` to the position `i`, counted
after the two marker tokens, of the last token whose first two characters are
those of the name of `f`; when no token matches, the index of `f` keeps the
value it had. The resolver is a total function: no error is raised. -/
theorem resolve_binds_last_match (ts : List (List Char))
    (hts : ∀ t ∈ ts, t ≠ [] ∧ SP ∉ t) (index : Fin 6 → Int) (f : Fin 6) :
    (∀ i (hi : i < ts.length),
        (ts.get ⟨i, hi⟩).take 2 = strings_xuyuzuvxvyvz f →
        (∀ k (hk : k < ts.length), i < k →
          (ts.get ⟨k, hk⟩).take 2 ≠ strings_xuyuzuvxvyvz f) →
        resolve (headerLine ts) index f = i) ∧
    ((∀ t ∈ ts, t.take 2 ≠ strings_xuyuzuvxvyvz f) →
        resolve (headerLine ts) index f = index f) := by
  have hne : ∀ t : List Char, t.take 2 ≠ strings_xuyuzuvxvyvz f →
      strncmp0 t (strings_xuyuzuvxvyvz f) 2 = false := by
    intro t ht
    cases hs : strncmp0 t (strings_xuyuzuvxvyvz f) 2
    · rfl
    · exact absurd ((strncmp0_two t f).1 hs) ht
  have hmark : ∀ t : List Char, t = "ITEM:".toList ∨ t = "ATOMS".toList →
      strncmp0 t (strings_xuyuzuvxvyvz f) 2 = false := by
    intro t ht
    rcases ht with rfl | rfl <;> fin_cases f <;> decide
  refine ⟨?_, ?_⟩
  · intro i hi hm hlast
    rw [resolve, strtok_headerLine ts hts]
    have := bindTokens_last f ("ITEM:".toList :: "ATOMS".toList :: ts) 0 index (i + 2)
      (by simpa using hi) (by simpa using (strncmp0_two _ f).2 hm)
      (fun k hk hik => by
        obtain ⟨k, rfl⟩ : ∃ m, k = m + 2 := ⟨k - 2, by omega⟩
        have hk2 : k < ts.length := by simpa using hk
        simpa using hne _ (hlast k hk2 (by omega)))
    rw [this]
    push_cast
    ring
  · intro hno
    rw [resolve, strtok_headerLine ts hts]
    apply bindTokens_none
    intro t ht
    simp only [List.mem_cons] at ht
    rcases ht with h | h | h
    · exact hmark t (Or.inl h)
    · exact hmark t (Or.inr h)
    · exact hne t (hno t h)

/-- C7 at the header `ITEM: ATOMS id xu yu xux`: xu is bound to column 3,
the last of the two matching tokens, and vz, which no token matches, keeps
the value -7 it had. -/
theorem resolve_binds_last_match_witness :
    resolve (headerLine ["id".toList, "xu".toList, "yu".toList, "xux\n".toList])
        (fun _ => -7) 0 = (3 : Nat) ∧
    resolve (headerLine ["id".toList, "xu".toList, "yu".toList, "xux\n".toList])
        (fun _ => -7) 5 = -7 :=
  ⟨(resolve_binds_last_match ["id".toList, "xu".toList, "yu".toList, "xux\n".toList]
      (by decide) (fun _ => -7) 0).1 3 (by decide) (by decide)
      (fun k hk hik => by simp at hk; omega),
   (resolve_binds_last_match ["id".toList, "xu".toList, "yu".toList, "xux\n".toList]
      (by decide) (fun _ => -7) 5).2 (by decide)⟩

/-! ## Reading lines -/

theorem fgetsChunk_length (n : Nat) (fp : List Char) :
    (fgetsChunk n fp).2.length ≤ fp.length := by
  induction n generalizing fp with
  | zero => simp [fgetsChunk]
  | succ n ih =>
    cases fp with
    | nil => simp [fgetsChunk]
    | cons c fp =>
      by_cases hc : c = NL
      · simp [fgetsChunk, hc]
      · simp only [fgetsChunk, hc, if_false, List.length_cons]
        exact Nat.le_succ_of_le (ih fp)

theorem fgets_length {fp l rest : List Char} (h : fgets fp = some (l, rest)) :
    rest.length < fp.length := by
  cases fp with
  | nil => simp [fgets] at h
  | cons c fp =>
    simp only [fgets, Option.some.injEq, Prod.mk.injEq] at h
    rw [← h.2]
    by_cases hc : c = NL
    · simp [fgetsChunk, hc]
    · simp only [fgetsChunk, hc, if_false, List.length_cons]
      exact Nat.lt_succ_of_le (fgetsChunk_length 254 fp)

theorem fgetsChunk_line (c : List Char) (hc : NL ∉ c) (n : Nat) (hn : c.length < n)
    (rest : List Char) :
    fgetsChunk n (c ++ NL :: rest) = (c ++ [NL], rest) := by
  induction c generalizing n with
  | nil =>
    obtain ⟨m, rfl⟩ : ∃ m, n = m + 1 := ⟨n - 1, by simp at hn; omega⟩
    simp [fgetsChunk]
  | cons a c ih =>
    obtain ⟨m, rfl⟩ : ∃ m, n = m + 1 := ⟨n - 1, by simp at hn; omega⟩
    have ha : a ≠ NL := fun e => hc (by simp [e])
    have hc2 : NL ∉ c := fun e => hc (by simp [e])
    have e := ih hc2 m (by simpa using hn)
    simp only [List.cons_append, fgetsChunk, ha, if_false]
    simp [e]

/-- A line that fits the buffer is read whole. -/
theorem fgets_line (c : List Char) (hc : NL ∉ c) (hlen : c.length ≤ 254) (rest : List Char) :
    fgets (c ++ NL :: rest) = some (cstr (c ++ [NL]), rest) := by
  have h := fgetsChunk_line c hc 255 (by omega) rest
  cases hcr : c ++ NL :: rest with
  | nil => simp at hcr
  | cons a t =>
    rw [hcr] at h
    simp [fgets, h]

theorem fgetsLine_fp (st : State) : (fgetsLine st).fp.length ≤ st.fp.length := by
  unfold fgetsLine
  cases h : fgets st.fp with
  | none => simp
  | some p =>
    obtain ⟨l, rest⟩ := p
    exact Nat.le_of_lt (fgets_length h)

/-! ## What the parts of the main loop leave alone -/

theorem SameVars.rfl (st : State) : SameVars st st :=
  ⟨Eq.refl _, Eq.refl _, Eq.refl _, Eq.refl _, Eq.refl _, Eq.refl _, Eq.refl _, Eq.refl _⟩

theorem SameVars.trans {a b c : State} (h1 : SameVars a b) (h2 : SameVars b c) :
    SameVars a c := by
  obtain ⟨a1, a2, a3, a4, a5, a6, a7, a8⟩ := h1
  obtain ⟨b1, b2, b3, b4, b5, b6, b7, b8⟩ := h2
  exact ⟨a1.trans b1, a2.trans b2, a3.trans b3, a4.trans b4, a5.trans b5, a6.trans b6,
    a7.trans b7, a8.trans b8⟩

theorem fgetsLine_same (st : State) : SameVars (fgetsLine st) st := by
  unfold fgetsLine
  cases fgets st.fp with
  | none => exact SameVars.rfl st
  | some p => exact SameVars.rfl st

theorem fgetsLine_bufs (st : State) :
    (fgetsLine st).x = st.x ∧ (fgetsLine st).v = st.v ∧
      (fgetsLine st).got_coordpos = st.got_coordpos := by
  unfold fgetsLine
  cases fgets st.fp with
  | none => exact ⟨rfl, rfl, rfl⟩
  | some p => exact ⟨rfl, rfl, rfl⟩

theorem scanLine_same (j : Nat) (st : State) : SameVars (scanLine j st) st :=
  SameVars.rfl st

theorem scanLine_fp (j : Nat) (st : State) : (scanLine j st).fp = st.fp := rfl

theorem readAtom_same (j : Nat) (st : State) : SameVars (readAtom j st) st :=
  (scanLine_same j (fgetsLine st)).trans (fgetsLine_same st)

theorem readAtoms_same (n j : Nat) (st : State) : SameVars (readAtoms n j st) st := by
  induction n generalizing j st with
  | zero => exact SameVars.rfl st
  | succ n ih => exact (ih (j + 1) (readAtom j st)).trans (readAtom_same j st)

theorem readAtoms_fp (n j : Nat) (st : State) :
    (readAtoms n j st).fp.length ≤ st.fp.length := by
  induction n generalizing j st with
  | zero => exact Nat.le_refl _
  | succ n ih =>
    exact Nat.le_trans (ih (j + 1) (readAtom j st)) (fgetsLine_fp st)

theorem readBox_fp (st : State) : (readBox st).fp.length ≤ st.fp.length :=
  Nat.le_trans (fgetsLine_fp (fgetsLine (fgetsLine st)))
    (Nat.le_trans (fgetsLine_fp (fgetsLine st)) (fgetsLine_fp st))

theorem mainStep_fp (env : Env) (st : State) :
    (mainStep env st).fp.length ≤ st.fp.length := by
  unfold mainStep
  split_ifs
  · exact fgetsLine_fp st
  · exact fgetsLine_fp st
  · exact readBox_fp st
  · exact readAtoms_fp _ _ st
  · exact Nat.le_refl _
  · exact Nat.le_refl _

/-- Once the fuel covers the unread characters, more fuel changes nothing. -/
theorem mainLoop_fuel (env : Env) (n m : Nat) (st : State)
    (hn : st.fp.length ≤ n) (hm : st.fp.length ≤ m) :
    mainLoop env n st = mainLoop env m st := by
  induction n generalizing m st with
  | zero =>
    have h0 : st.fp = [] := List.eq_nil_of_length_eq_zero (Nat.le_zero.1 hn)
    cases m with
    | zero => rfl
    | succ m => simp [mainLoop, h0, fgets]
  | succ n ih =>
    cases m with
    | zero =>
      have h0 : st.fp = [] := List.eq_nil_of_length_eq_zero (Nat.le_zero.1 hm)
      simp [mainLoop, h0, fgets]
    | succ m =>
      simp only [mainLoop]
      cases h : fgets st.fp with
      | none => rfl
      | some p =>
        obtain ⟨l, rest⟩ := p
        have h1 := fgets_length h
        have h2 := mainStep_fp env { st with line := l, fp := rest }
        exact ih m _ (by simp at h2; omega) (by simp at h2; omega)

theorem run_eof (env : Env) (st : State) (h : st.fp = []) : run env st = st := by
  simp [run, h, mainLoop]

theorem run_step (env : Env) (st : State) (l rest : List Char)
    (h : fgets st.fp = some (l, rest)) :
    run env st = run env (mainStep env { st with line := l, fp := rest }) := by
  have h1 := fgets_length h
  have h2 := mainStep_fp env { st with line := l, fp := rest }
  obtain ⟨n, hn⟩ : ∃ n, st.fp.length = n + 1 := ⟨st.fp.length - 1, by omega⟩
  unfold run
  rw [hn]
  simp only [mainLoop, h]
  exact mainLoop_fuel env _ _ _ (by simp at h2; omega) (Nat.le_refl _)

theorem mainLoop_invariant (env : Env) (P : State → Prop)
    (hstep : ∀ st l rest, P st → P (mainStep env { st with line := l, fp := rest })) :
    ∀ (n : Nat) (st : State), P st → P (mainLoop env n st) := by
  intro n
  induction n with
  | zero => intro st h; exact h
  | succ n ih =>
    intro st h
    simp only [mainLoop]
    cases hf : fgets st.fp with
    | none => exact h
    | some p => exact ih _ (hstep st p.1 p.2 h)

/-! ## The discovery pass leaves the variables of the main pass alone -/

theorem discoverStep_main (env : Env) (st : State) : SameMain (discoverStep env st) st := by
  unfold discoverStep
  split_ifs
  · obtain ⟨_, _, h3, h4, h5, _, h7, h8⟩ := fgetsLine_same st
    exact ⟨h3, h4, h5, h7, h8⟩
  · exact ⟨rfl, rfl, rfl, rfl, rfl⟩
  · exact ⟨rfl, rfl, rfl, rfl, rfl⟩
  · exact ⟨rfl, rfl, rfl, rfl, rfl⟩

theorem discoverLoop_main (env : Env) (n : Nat) (st : State) :
    SameMain (discoverLoop env n st) st := by
  induction n generalizing st with
  | zero => exact ⟨rfl, rfl, rfl, rfl, rfl⟩
  | succ n ih =>
    simp only [discoverLoop]
    cases hf : fgets st.fp with
    | none => exact ⟨rfl, rfl, rfl, rfl, rfl⟩
    | some p =>
      have h1 := discoverStep_main env { st with line := p.1, fp := p.2 }
      simp only []
      split_ifs
      · exact h1
      · obtain ⟨a1, a2, a3, a4, a5⟩ := ih (discoverStep env { st with line := p.1, fp := p.2 })
        obtain ⟨b1, b2, b3, b4, b5⟩ := h1
        exact ⟨a1.trans b1, a2.trans b2, a3.trans b3, a4.trans b4, a5.trans b5⟩

theorem discover_main (env : Env) (file : List Char) :
    (discover env file).step = 0 ∧ (discover env file).lammps_box = (fun _ => 0) ∧
    (discover env file).box = (fun _ _ => 0) ∧ (discover env file).trj_out = [] ∧
    (discover env file).out = [] :=
  discoverLoop_main env file.length { init env with fp := file }

/-! ## The marker tests -/

theorem strncmp0_iff (l lit : List Char) (n : Nat) (h : n ≤ lit.length) :
    strncmp0 l lit n = true ↔ l.take n = lit.take n := by
  induction n generalizing l lit with
  | zero => simp [strncmp0]
  | succ n ih =>
    cases lit with
    | nil => simp at h
    | cons b t =>
      cases l with
      | nil => simp [strncmp0]
      | cons a s =>
        have := ih s t (by simpa using h)
        simp [strncmp0, this]

theorem take_of_take {l : List Char} {n : Nat} {p : List Char} (h : l.take n = p)
    (m : Nat) (hm : m ≤ n) : l.take m = p.take m := by
  rw [← h, List.take_take, Nat.min_eq_left hm]

theorem marker_count {l : List Char}
    (h : strncmp0 l "ITEM: NUMBER OF ATOMS".toList 21 = true) :
    strncmp0 l "ITEM".toList 4 = true := by
  rw [strncmp0_iff _ _ _ (by decide)] at h ⊢
  rw [take_of_take h 4 (by decide)]
  decide

theorem marker_timestep {l : List Char}
    (h : strncmp0 l "ITEM: TIMESTEP".toList 14 = true) :
    strncmp0 l "ITEM".toList 4 = true ∧
    strncmp0 l "ITEM: NUMBER OF ATOMS".toList 21 = false := by
  rw [strncmp0_iff _ _ _ (by decide)] at h
  refine ⟨?_, ?_⟩
  · rw [strncmp0_iff _ _ _ (by decide), take_of_take h 4 (by decide)]
    decide
  · cases hc : strncmp0 l "ITEM: NUMBER OF ATOMS".toList 21
    · rfl
    · rw [strncmp0_iff _ _ _ (by decide)] at hc
      have h1 := take_of_take h 7 (by decide)
      rw [take_of_take hc 7 (by decide)] at h1
      exact absurd h1 (by decide)

theorem marker_bounds {l : List Char}
    (h : strncmp0 l "ITEM: BOX BOUNDS pp pp pp".toList 25 = true) :
    strncmp0 l "ITEM".toList 4 = true ∧
    strncmp0 l "ITEM: NUMBER OF ATOMS".toList 21 = false ∧
    strncmp0 l "ITEM: TIMESTEP".toList 14 = false := by
  rw [strncmp0_iff _ _ _ (by decide)] at h
  refine ⟨?_, ?_, ?_⟩
  · rw [strncmp0_iff _ _ _ (by decide), take_of_take h 4 (by decide)]
    decide
  · cases hc : strncmp0 l "ITEM: NUMBER OF ATOMS".toList 21
    · rfl
    · rw [strncmp0_iff _ _ _ (by decide)] at hc
      have h1 := take_of_take h 7 (by decide)
      rw [take_of_take hc 7 (by decide)] at h1
      exact absurd h1 (by decide)
  · cases hc : strncmp0 l "ITEM: TIMESTEP".toList 14
    · rfl
    · rw [strncmp0_iff _ _ _ (by decide)] at hc
      have h1 := take_of_take h 7 (by decide)
      rw [take_of_take hc 7 (by decide)] at h1
      exact absurd h1 (by decide)

theorem marker_atoms {l : List Char}
    (h : strncmp0 l "ITEM: ATOMS".toList 11 = true) :
    strncmp0 l "ITEM".toList 4 = true ∧
    strncmp0 l "ITEM: NUMBER OF ATOMS".toList 21 = false ∧
    strncmp0 l "ITEM: TIMESTEP".toList 14 = false ∧
    strncmp0 l "ITEM: BOX BOUNDS pp pp pp".toList 25 = false := by
  rw [strncmp0_iff _ _ _ (by decide)] at h
  refine ⟨?_, ?_, ?_, ?_⟩
  · rw [strncmp0_iff _ _ _ (by decide), take_of_take h 4 (by decide)]
    decide
  · cases hc : strncmp0 l "ITEM: NUMBER OF ATOMS".toList 21
    · rfl
    · rw [strncmp0_iff _ _ _ (by decide)] at hc
      have h1 := take_of_take h 7 (by decide)
      rw [take_of_take hc 7 (by decide)] at h1
      exact absurd h1 (by decide)
  · cases hc : strncmp0 l "ITEM: TIMESTEP".toList 14
    · rfl
    · rw [strncmp0_iff _ _ _ (by decide)] at hc
      have h1 := take_of_take h 7 (by decide)
      rw [take_of_take hc 7 (by decide)] at h1
      exact absurd h1 (by decide)
  · cases hc : strncmp0 l "ITEM: BOX BOUNDS pp pp pp".toList 25
    · rfl
    · rw [strncmp0_iff _ _ _ (by decide)] at hc
      have h1 := take_of_take h 7 (by decide)
      rw [take_of_take hc 7 (by decide)] at h1
      exact absurd h1 (by decide)

theorem mainStep_count (env : Env) (st : State)
    (h : strncmp0 st.line "ITEM: NUMBER OF ATOMS".toList 21 = true) :
    mainStep env st = fgetsLine st := by
  simp only [mainStep, h, marker_count h, if_true, if_false, Bool.false_eq_true]

theorem mainStep_timestep (env : Env) (st : State)
    (h : strncmp0 st.line "ITEM: TIMESTEP".toList 14 = true) :
    mainStep env st
      = { fgetsLine st with step := (sscanf_d (fgetsLine st).line).getD st.step } := by
  obtain ⟨h1, h2⟩ := marker_timestep h
  simp only [mainStep, h, h1, h2, if_true, if_false, Bool.false_eq_true]

theorem mainStep_bounds (env : Env) (st : State)
    (h : strncmp0 st.line "ITEM: BOX BOUNDS pp pp pp".toList 25 = true) :
    mainStep env st = readBox st := by
  obtain ⟨h1, h2, h3⟩ := marker_bounds h
  simp only [mainStep, h, h1, h2, h3, if_true, if_false, Bool.false_eq_true]

theorem mainStep_atoms (env : Env) (st : State)
    (h : strncmp0 st.line "ITEM: ATOMS".toList 11 = true) :
    mainStep env st = writeFrame env (readAtoms st.natoms.toNat 0 st) := by
  obtain ⟨h1, h2, h3, h4⟩ := marker_atoms h
  simp only [mainStep, h, h1, h2, h3, h4, if_true, if_false, Bool.false_eq_true]

theorem mainStep_other (env : Env) (st : State)
    (h : strncmp0 st.line "ITEM".toList 4 = false) :
    mainStep env st = { st with out := st.out ++ [unexpected] } := by
  simp only [mainStep, h, if_true, if_false, Bool.false_eq_true]

theorem mainStep_unknown (env : Env) (st : State)
    (h0 : strncmp0 st.line "ITEM".toList 4 = true)
    (h1 : strncmp0 st.line "ITEM: NUMBER OF ATOMS".toList 21 = false)
    (h2 : strncmp0 st.line "ITEM: TIMESTEP".toList 14 = false)
    (h3 : strncmp0 st.line "ITEM: BOX BOUNDS pp pp pp".toList 25 = false)
    (h4 : strncmp0 st.line "ITEM: ATOMS".toList 11 = false) :
    mainStep env st = st := by
  simp only [mainStep, h0, h1, h2, h3, h4, if_true, if_false, Bool.false_eq_true]

/-! ## What one turn of the main loop does to the variables -/

theorem readBox_same (st : State) :
    (readBox st).index_xuyuzuvxvyvz = st.index_xuyuzuvxvyvz ∧ (readBox st).natoms = st.natoms ∧
    (readBox st).step = st.step ∧ (readBox st).x = st.x ∧ (readBox st).v = st.v ∧
    (readBox st).trj_out = st.trj_out ∧ (readBox st).out = st.out := by
  obtain ⟨a1, a2, a3, -, -, -, a7, a8⟩ := fgetsLine_same st
  obtain ⟨b1, b2, b3, -, -, -, b7, b8⟩ := fgetsLine_same (fgetsLine st)
  obtain ⟨c1, c2, c3, -, -, -, c7, c8⟩ := fgetsLine_same (fgetsLine (fgetsLine st))
  obtain ⟨d1, d2, -⟩ := fgetsLine_bufs st
  obtain ⟨e1, e2, -⟩ := fgetsLine_bufs (fgetsLine st)
  obtain ⟨f1, f2, -⟩ := fgetsLine_bufs (fgetsLine (fgetsLine st))
  exact ⟨c1.trans (b1.trans a1), c2.trans (b2.trans a2), c3.trans (b3.trans a3),
    f1.trans (e1.trans d1), f2.trans (e2.trans d2), c7.trans (b7.trans a7),
    c8.trans (b8.trans a8)⟩

/-- One turn of the main loop either writes no frame, or it is a turn at an
atom-data marker and writes the frame made of the variables after the loop
over the atoms. -/
theorem mainStep_trj (env : Env) (st : State) :
    (mainStep env st).trj_out = st.trj_out ∨
    (strncmp0 st.line "ITEM: ATOMS".toList 11 = true ∧
      mainStep env st = writeFrame env (readAtoms st.natoms.toNat 0 st)) := by
  by_cases h4 : strncmp0 st.line "ITEM: ATOMS".toList 11 = true
  · exact Or.inr ⟨h4, mainStep_atoms env st h4⟩
  · left
    unfold mainStep
    split_ifs
    · exact (fgetsLine_same st).2.2.2.2.2.2.1
    · exact (fgetsLine_same st).2.2.2.2.2.2.1
    · exact (readBox_same st).2.2.2.2.2.1
    · rfl
    · rfl

theorem mainStep_natoms (env : Env) (st : State) :
    (mainStep env st).natoms = st.natoms ∧
    (mainStep env st).index_xuyuzuvxvyvz = st.index_xuyuzuvxvyvz := by
  unfold mainStep
  split_ifs
  · exact ⟨(fgetsLine_same st).2.1, (fgetsLine_same st).1⟩
  · exact ⟨(fgetsLine_same st).2.1, (fgetsLine_same st).1⟩
  · exact ⟨(readBox_same st).2.1, (readBox_same st).1⟩
  · exact ⟨(readAtoms_same _ _ st).2.1, (readAtoms_same _ _ st).1⟩
  · exact ⟨rfl, rfl⟩
  · exact ⟨rfl, rfl⟩

theorem mainStep_step (env : Env) (st : State) :
    (mainStep env st).step
      = if strncmp0 st.line "ITEM: TIMESTEP".toList 14 = true then
          (sscanf_d (fgetsLine st).line).getD st.step
        else st.step := by
  by_cases h : strncmp0 st.line "ITEM: TIMESTEP".toList 14 = true
  · rw [if_pos h, mainStep_timestep env st h]
  · rw [if_neg h]
    unfold mainStep
    split_ifs
    · exact (fgetsLine_same st).2.2.1
    · exact (readBox_same st).2.2.1
    · exact (readAtoms_same _ _ st).2.2.1
    · rfl
    · rfl

/-- A frame in the TRR file after one turn of the main loop was there before
the turn, or it is made of the variables left by the loop over the atoms. -/
theorem mainStep_mem (env : Env) (st : State) (p : Frame)
    (hp : p ∈ (mainStep env st).trj_out) :
    p ∈ st.trj_out ∨ p = currentFrame env (readAtoms st.natoms.toNat 0 st) := by
  rcases mainStep_trj env st with h | ⟨-, h⟩
  · left
    rwa [h] at hp
  · rw [h] at hp
    simp only [writeFrame, List.mem_append, List.mem_singleton] at hp
    rcases hp with hp | hp
    · left
      rwa [(readAtoms_same _ _ st).2.2.2.2.2.2.1] at hp
    · right
      rw [hp]

/-- A property of frames that holds for every frame one turn can write holds
for all frames of a run. -/
theorem mainLoop_frames (env : Env) (I : State → Prop) (Q : Frame → Prop)
    (hI : ∀ st l rest, I st → I (mainStep env { st with line := l, fp := rest }))
    (hQ : ∀ st l rest, I st →
      Q (currentFrame env (readAtoms st.natoms.toNat 0 { st with line := l, fp := rest })))
    (n : Nat) (st : State) (h0 : I st) (h1 : ∀ p ∈ st.trj_out, Q p) :
    ∀ p ∈ (mainLoop env n st).trj_out, Q p := by
  have := mainLoop_invariant env (fun s => I s ∧ ∀ p ∈ s.trj_out, Q p)
    (fun s l rest hs => ⟨hI s l rest hs.1, fun p hp => by
      rcases mainStep_mem env _ p hp with h | h
      · exact hs.2 p h
      · rw [h]
        exact hQ s l rest hs.1⟩) n st ⟨h0, h1⟩
  exact this.2

/-- C5: every frame handed to the writer has the time `step * dt`, where
`step` is the step handed over with it; `step` is 0 when the main pass
starts, a turn of the main loop changes it only in the timestep branch, where
it becomes the integer read from the next line (and stays as it was when none
can be read), and a frame written in a turn carries the value `step` had when
the turn began. In the scenario of the specification step 100 with the time
step 0.001 gives the time 0.1. -/
theorem time_is_step_times_dt (env : Env) :
    (∀ file, ∀ f ∈ framesWritten env file, f.t = (f.step : ℚ) * env.dt) ∧
    (∀ file, (discover env file).step = 0) ∧
    (∀ st, (mainStep env st).step
        = if strncmp0 st.line "ITEM: TIMESTEP".toList 14 = true then
            (sscanf_d (fgetsLine st).line).getD st.step
          else st.step) ∧
    (∀ st, ∀ p ∈ (mainStep env st).trj_out,
        p ∈ st.trj_out ∨ (p.step = st.step ∧ p.t = (st.step : ℚ) * env.dt)) ∧
    (framesWritten env0 dump1).map (fun f => (f.step, f.t)) = [(100, 1 / 10)] := by
  refine ⟨?_, fun file => (discover_main env file).1, mainStep_step env, ?_, ?_⟩
  · intro file f hf
    simp only [framesWritten, mainPass, run] at hf
    exact mainLoop_frames env (fun _ => True) (fun f => f.t = (f.step : ℚ) * env.dt)
      (fun _ _ _ _ => trivial) (fun _ _ _ _ => rfl) _ _ trivial
      (by simp [(discover_main env file).2.2.2.1]) f hf
  · intro st p hp
    rcases mainStep_mem env st p hp with h | h
    · exact Or.inl h
    · right
      rw [h]
      have := (readAtoms_same st.natoms.toNat 0 st).2.2.1
      simp [currentFrame, this]
  · decide!

/-! ## Lines outside every section -/

/-- C9, as stated, fails: `dumpStray` has three lines, none of them one of
the four markers or in the body of one, and only two of them are reported;
the line `ITEM: FOO` is passed over without a message. -/
theorem unknown_item_not_reported :
    (mainPass env0 dumpStray).out = [unexpected, unexpected] ∧
    (mainStep env0 { init env0 with line := "ITEM: FOO\n".toList }).out = [] := by
  decide

/-- C9, as the code has it: when the line read at the top of the main loop
does not begin with `ITEM`, the message is printed and the loop goes on with
the rest of the file, all other variables as they were; when it begins with
`ITEM` and is none of the four markers, the loop goes on with the rest of the
file and nothing at all is changed or printed. -/
theorem stray_line_reported (env : Env) (st : State) (l rest : List Char)
    (hread : fgets st.fp = some (l, rest)) :
    (strncmp0 l "ITEM".toList 4 = false →
      run env st = run env { st with line := l, fp := rest, out := st.out ++ [unexpected] }) ∧
    (strncmp0 l "ITEM".toList 4 = true →
      strncmp0 l "ITEM: NUMBER OF ATOMS".toList 21 = false →
      strncmp0 l "ITEM: TIMESTEP".toList 14 = false →
      strncmp0 l "ITEM: BOX BOUNDS pp pp pp".toList 25 = false →
      strncmp0 l "ITEM: ATOMS".toList 11 = false →
      run env st = run env { st with line := l, fp := rest }) := by
  refine ⟨?_, ?_⟩
  · intro h
    rw [run_step env st l rest hread, mainStep_other env _ h]
  · intro h0 h1 h2 h3 h4
    rw [run_step env st l rest hread, mainStep_unknown env _ h0 h1 h2 h3 h4]

/-- C9 on `dumpStray`: the first line is reported and the loop goes on with
the two lines that follow. -/
theorem stray_line_reported_witness :
    run env0 { init env0 with fp := dumpStray }
      = run env0 { init env0 with
          line := "stray\n".toList, fp := "ITEM: FOO\nmore\n".toList, out := [unexpected] } :=
  (stray_line_reported env0 { init env0 with fp := dumpStray } "stray\n".toList
    "ITEM: FOO\nmore\n".toList (by decide)).1 (by decide)

/-! ## No atoms -/

/-- C8: when the atom count is 0, a turn of the main loop at an `ITEM: ATOMS`
marker reads no line, prints nothing and appends one frame with atom count 0
and empty position and velocity arrays; so every frame of a run whose
discovery pass found the atom count 0 is such a frame. The program has no
error branch on this path and returns 0. On `dumpEmpty` two such frames are
written and no line is reported as unexpected. -/
theorem zero_atoms_frame (env : Env) :
    (∀ st, st.natoms = 0 → strncmp0 st.line "ITEM: ATOMS".toList 11 = true →
      mainStep env st = writeFrame env st ∧ (mainStep env st).fp = st.fp ∧
      (mainStep env st).out = st.out ∧
      (mainStep env st).trj_out.length = st.trj_out.length + 1 ∧
      (currentFrame env st).natoms = 0 ∧ (currentFrame env st).x = [] ∧
      (currentFrame env st).v = []) ∧
    (∀ file, (discover env file).natoms = 0 →
      ∀ f ∈ framesWritten env file, f.natoms = 0 ∧ f.x = [] ∧ f.v = []) ∧
    (∀ file, (main env (some file)).1 = 0) ∧
    ((framesWritten env0 dumpEmpty).map (fun f => (f.step, f.natoms, f.x.length, f.v.length))
        = [(7, 0, 0, 0), (8, 0, 0, 0)] ∧
      (mainPass env0 dumpEmpty).out = []) := by
  refine ⟨?_, ?_, fun _ => rfl, ?_⟩
  · intro st h0 hm
    have e : mainStep env st = writeFrame env st := by
      rw [mainStep_atoms env st hm, h0]
      rfl
    refine ⟨e, ?_, ?_, ?_, ?_, ?_, ?_⟩
    · rw [e]; rfl
    · rw [e]; rfl
    · rw [e]; simp [writeFrame]
    · exact h0
    · simp [currentFrame, h0]
    · simp [currentFrame, h0]
  · intro file h0 f hf
    simp only [framesWritten, mainPass, run] at hf
    refine mainLoop_frames env (fun s => s.natoms = 0)
      (fun f => f.natoms = 0 ∧ f.x = [] ∧ f.v = [])
      (fun s l rest hs => ((mainStep_natoms env _).1).trans hs)
      (fun s l rest hs => ?_) file.length { discover env file with fp := file } h0
      (by simp [(discover_main env file).2.2.2.1]) f hf
    have hn : (readAtoms s.natoms.toNat 0 { s with line := l, fp := rest }).natoms = 0 := by
      rw [(readAtoms_same _ _ _).2.1]; exact hs
    simp [currentFrame, hn]
  · decide!

/-! ## The main loop on the sections of a well-formed dump -/

theorem fgets_textLine (c : List Char) (hc : FitsBuffer c) (rest : List Char) :
    fgets (textLine c ++ rest) = some (buf c, rest) := by
  have := fgets_line c hc.1 hc.2 rest
  simpa [textLine, buf] using this

theorem fgetsLine_textLine (st : State) (c rest : List Char) (hc : FitsBuffer c)
    (hfp : st.fp = textLine c ++ rest) :
    fgetsLine st = { st with line := buf c, fp := rest } := by
  simp only [fgetsLine, hfp, fgets_textLine c hc rest]

theorem run_line (env : Env) (st : State) (c rest : List Char) (hc : FitsBuffer c)
    (hfp : st.fp = textLine c ++ rest) :
    run env st = run env (mainStep env { st with line := buf c, fp := rest }) :=
  run_step env st (buf c) rest (by rw [hfp, fgets_textLine c hc rest])

theorem readBox_lines (st : State) (c1 c2 c3 rest : List Char)
    (h1 : FitsBuffer c1) (h2 : FitsBuffer c2) (h3 : FitsBuffer c3)
    (hfp : st.fp = textLine c1 ++ (textLine c2 ++ (textLine c3 ++ rest))) :
    readBox st
      = { st with
          line := buf c3
          fp := rest
          lammps_box := scanBounds (buf c3) 4 5
            (scanBounds (buf c2) 2 3 (scanBounds (buf c1) 0 1 st.lammps_box))
          box := convertBox (scanBounds (buf c3) 4 5
            (scanBounds (buf c2) 2 3 (scanBounds (buf c1) 0 1 st.lammps_box))) st.box } := by
  have e1 := fgetsLine_textLine st c1 _ h1 hfp
  have e2 := fgetsLine_textLine { st with line := buf c1, fp := textLine c2 ++ (textLine c3 ++ rest) }
    c2 _ h2 rfl
  have e3 := fgetsLine_textLine
    { st with line := buf c2, fp := textLine c3 ++ rest } c3 rest h3 rfl
  simp only [readBox, e1, e2, e3]

theorem run_timestep (env : Env) (st : State) (c rest : List Char) (hc : FitsBuffer c)
    (hfp : st.fp = textLine "ITEM: TIMESTEP".toList ++ (textLine c ++ rest)) :
    run env st
      = run env { st with line := buf c, fp := rest, step := (sscanf_d (buf c)).getD st.step } := by
  have hm : strncmp0 (buf "ITEM: TIMESTEP".toList) "ITEM: TIMESTEP".toList 14 = true := by
    decide
  rw [run_line env st _ _ (by decide) hfp, mainStep_timestep env _ hm,
    fgetsLine_textLine _ c rest hc rfl]

theorem run_count (env : Env) (st : State) (c rest : List Char) (hc : FitsBuffer c)
    (hfp : st.fp = textLine "ITEM: NUMBER OF ATOMS".toList ++ (textLine c ++ rest)) :
    run env st = run env { st with line := buf c, fp := rest } := by
  have hm : strncmp0 (buf "ITEM: NUMBER OF ATOMS".toList) "ITEM: NUMBER OF ATOMS".toList 21
      = true := by
    decide
  rw [run_line env st _ _ (by decide) hfp, mainStep_count env _ hm,
    fgetsLine_textLine _ c rest hc rfl]

theorem run_bounds (env : Env) (st : State) (c1 c2 c3 rest : List Char)
    (h1 : FitsBuffer c1) (h2 : FitsBuffer c2) (h3 : FitsBuffer c3)
    (hfp : st.fp = textLine "ITEM: BOX BOUNDS pp pp pp".toList ++
      (textLine c1 ++ (textLine c2 ++ (textLine c3 ++ rest)))) :
    run env st
      = run env { st with
          line := buf c3
          fp := rest
          lammps_box := scanBounds (buf c3) 4 5
            (scanBounds (buf c2) 2 3 (scanBounds (buf c1) 0 1 st.lammps_box))
          box := convertBox (scanBounds (buf c3) 4 5
            (scanBounds (buf c2) 2 3 (scanBounds (buf c1) 0 1 st.lammps_box))) st.box } := by
  have hm : strncmp0 (buf "ITEM: BOX BOUNDS pp pp pp".toList)
      "ITEM: BOX BOUNDS pp pp pp".toList 25 = true := by
    decide
  rw [run_line env st _ _ (by decide) hfp, mainStep_bounds env _ hm,
    readBox_lines _ c1 c2 c3 rest h1 h2 h3 rfl]

theorem atomsMarker_test (cols : List Char) :
    strncmp0 (buf ("ITEM: ATOMS".toList ++ cols)) "ITEM: ATOMS".toList 11 = true := by
  rw [strncmp0_iff _ _ _ (by decide)]
  simp [buf, cstr, List.takeWhile, NUL]

theorem readAtoms_lines (lines : List (List Char)) (hl : ∀ l ∈ lines, FitsBuffer l)
    (rest : List Char) (j : Nat) (st : State)
    (hfp : st.fp = (lines.map textLine).flatten ++ rest) :
    readAtoms lines.length j st = scanLines (lines.map buf) j { st with fp := rest } := by
  induction lines generalizing j st with
  | nil =>
    simp only [List.map_nil, List.flatten_nil, List.nil_append] at hfp
    simp only [List.length_nil, readAtoms, List.map_nil, scanLines]
    rw [← hfp]
  | cons l ls ih =>
    have h1 : FitsBuffer l := hl l (by simp)
    have h2 : ∀ u ∈ ls, FitsBuffer u := fun u hu => hl u (by simp [hu])
    have hfp2 : st.fp = textLine l ++ ((ls.map textLine).flatten ++ rest) := by
      simpa using hfp
    simp only [List.length_cons, readAtoms, readAtom, List.map_cons, scanLines]
    rw [fgetsLine_textLine st l _ h1 hfp2, ih h2 (j + 1) _ rfl]
    rfl

theorem run_atoms (env : Env) (st : State) (cols : List Char) (lines : List (List Char))
    (rest : List Char) (hm : FitsBuffer ("ITEM: ATOMS".toList ++ cols))
    (hl : ∀ l ∈ lines, FitsBuffer l) (hn : st.natoms = (lines.length : Int))
    (hfp : st.fp = textLine ("ITEM: ATOMS".toList ++ cols) ++
      ((lines.map textLine).flatten ++ rest)) :
    run env st
      = run env (writeFrame env (scanLines (lines.map buf) 0
          { st with line := buf ("ITEM: ATOMS".toList ++ cols), fp := rest })) := by
  rw [run_line env st _ _ hm hfp, mainStep_atoms env _ (atomsMarker_test cols)]
  have e : st.natoms.toNat = lines.length := by
    rw [hn]
    simp
  show run env (writeFrame env (readAtoms st.natoms.toNat 0 _)) = _
  rw [e, readAtoms_lines lines hl rest 0 _ rfl]

theorem scanBounds_two (c : List Char) (h : TwoNumbers c) (a b : Fin 6) :
    ∃ lo hi, sscanf_ff (buf c) = (some lo, some hi) ∧
      ∀ lb, scanBounds (buf c) a b lb = Function.update (Function.update lb a lo) b hi := by
  obtain ⟨h1, h2⟩ := h
  rcases hs : sscanf_ff (buf c) with ⟨_ | lo, _ | hi⟩
  · rw [hs] at h1; simp at h1
  · rw [hs] at h1; simp at h1
  · rw [hs] at h2; simp at h2
  · exact ⟨lo, hi, rfl, fun lb => by simp [scanBounds, hs]⟩

/-- Three lines with two numbers each overwrite all six bounds. -/
theorem bounds_overwritten (fr : DumpFrame) (hx : TwoNumbers fr.xBounds)
    (hy : TwoNumbers fr.yBounds) (hz : TwoNumbers fr.zBounds) (lb : Fin 6 → ℚ) :
    scanBounds (buf fr.zBounds) 4 5
      (scanBounds (buf fr.yBounds) 2 3 (scanBounds (buf fr.xBounds) 0 1 lb)) = fr.bounds := by
  unfold DumpFrame.bounds
  obtain ⟨x0, x1, -, ex⟩ := scanBounds_two _ hx 0 1
  obtain ⟨y0, y1, -, ey⟩ := scanBounds_two _ hy 2 3
  obtain ⟨z0, z1, -, ez⟩ := scanBounds_two _ hz 4 5
  rw [ex, ex, ey, ey, ez, ez]
  funext i
  fin_cases i <;> simp [Function.update]

theorem run_frame (env : Env) (N : Nat) (fr : DumpFrame) (hwf : fr.WellFormed N)
    (rest : List Char) (st : State) (hn : st.natoms = (N : Int))
    (hfp : st.fp = fr.text ++ rest) :
    run env st = run env (frameEffect env fr rest st) := by
  obtain ⟨⟨hs, -⟩, ⟨hc, -⟩, ⟨hx, hx2⟩, ⟨hy, hy2⟩, ⟨hz, hz2⟩, hm, hl, hlen⟩ := hwf
  have hb := bounds_overwritten fr hx2 hy2 hz2 st.lammps_box
  have hn2 : st.natoms = (fr.atoms.length : Int) := by rw [hn, hlen]
  unfold frameEffect beforeWrite
  rw [← hb]
  cases hord : fr.order <;>
    simp only [DumpFrame.text, hord, DumpFrame.timestepText, DumpFrame.countText,
      DumpFrame.boundsText, DumpFrame.atomsText, List.append_assoc] at hfp
  · rw [run_timestep env st _ _ hs hfp, run_count env _ _ _ hc rfl,
      run_bounds env _ _ _ _ _ hx hy hz rfl]
    refine Eq.trans (run_atoms env _ fr.columns fr.atoms rest hm hl ?_ rfl) ?_
    · exact hn2
    · rfl
  · rw [run_timestep env st _ _ hs hfp, run_bounds env _ _ _ _ _ hx hy hz rfl,
      run_count env _ _ _ hc rfl]
    refine Eq.trans (run_atoms env _ fr.columns fr.atoms rest hm hl ?_ rfl) ?_
    · exact hn2
    · rfl
  · rw [run_count env st _ _ hc hfp, run_timestep env _ _ _ hs rfl,
      run_bounds env _ _ _ _ _ hx hy hz rfl]
    refine Eq.trans (run_atoms env _ fr.columns fr.atoms rest hm hl ?_ rfl) ?_
    · exact hn2
    · rfl
  · rw [run_count env st _ _ hc hfp, run_bounds env _ _ _ _ _ hx hy hz rfl,
      run_timestep env _ _ _ hs rfl]
    refine Eq.trans (run_atoms env _ fr.columns fr.atoms rest hm hl ?_ rfl) ?_
    · exact hn2
    · rfl
  · rw [run_bounds env st _ _ _ _ hx hy hz hfp, run_timestep env _ _ _ hs rfl,
      run_count env _ _ _ hc rfl]
    refine Eq.trans (run_atoms env _ fr.columns fr.atoms rest hm hl ?_ rfl) ?_
    · exact hn2
    · rfl
  · rw [run_bounds env st _ _ _ _ hx hy hz hfp, run_count env _ _ _ hc rfl,
      run_timestep env _ _ _ hs rfl]
    refine Eq.trans (run_atoms env _ fr.columns fr.atoms rest hm hl ?_ rfl) ?_
    · exact hn2
    · rfl

theorem scanLines_same (bufs : List (List Char)) (j : Nat) (st : State) :
    SameVars (scanLines bufs j st) st ∧ (scanLines bufs j st).fp = st.fp := by
  induction bufs generalizing j st with
  | nil => exact ⟨SameVars.rfl st, rfl⟩
  | cons b bs ih =>
    obtain ⟨h1, h2⟩ := ih (j + 1) (scanLine j { st with line := b })
    exact ⟨h1.trans (SameVars.rfl st), h2⟩

theorem frameEffect_natoms (env : Env) (fr : DumpFrame) (rest : List Char) (st : State) :
    (frameEffect env fr rest st).natoms = st.natoms ∧
    (frameEffect env fr rest st).index_xuyuzuvxvyvz = st.index_xuyuzuvxvyvz ∧
    (frameEffect env fr rest st).fp = rest := by
  unfold frameEffect beforeWrite
  obtain ⟨⟨h1, h2, -⟩, h3⟩ := scanLines_same (fr.atoms.map buf) 0
    { st with
      line := buf fr.atomsMarker
      fp := rest
      step := (sscanf_d (buf fr.stepLine)).getD st.step
      lammps_box := fr.bounds
      box := convertBox fr.bounds st.box }
  exact ⟨h2, h1, h3⟩

/-- The main loop on a well-formed dump: frame after frame. -/
theorem run_frames (env : Env) (N : Nat) (frames : List DumpFrame)
    (hwf : ∀ fr ∈ frames, fr.WellFormed N) (st : State) (hn : st.natoms = (N : Int))
    (hfp : st.fp = dumpText frames) :
    run env st = afterFrames env frames st := by
  induction frames generalizing st with
  | nil => exact run_eof env st (by simpa [dumpText] using hfp)
  | cons fr frs ih =>
    have h1 : st.fp = fr.text ++ dumpText frs := by simpa [dumpText] using hfp
    rw [run_frame env N fr (hwf fr (by simp)) _ st hn h1, afterFrames]
    obtain ⟨e1, -, e3⟩ := frameEffect_natoms env fr (dumpText frs) st
    exact ih (fun g hg => hwf g (by simp [hg])) _ (e1.trans hn) e3

/-! ## The discovery pass on a well-formed dump -/

theorem discoverStep_fp (env : Env) (st : State) :
    (discoverStep env st).fp.length ≤ st.fp.length := by
  unfold discoverStep
  split_ifs
  · exact fgetsLine_fp st
  · exact Nat.le_refl _
  · exact Nat.le_refl _
  · exact Nat.le_refl _

theorem discoverLoop_fuel (env : Env) (n m : Nat) (st : State)
    (hn : st.fp.length ≤ n) (hm : st.fp.length ≤ m) :
    discoverLoop env n st = discoverLoop env m st := by
  induction n generalizing m st with
  | zero =>
    have h0 : st.fp = [] := List.eq_nil_of_length_eq_zero (Nat.le_zero.1 hn)
    cases m with
    | zero => rfl
    | succ m => simp [discoverLoop, h0, fgets]
  | succ n ih =>
    cases m with
    | zero =>
      have h0 : st.fp = [] := List.eq_nil_of_length_eq_zero (Nat.le_zero.1 hm)
      simp [discoverLoop, h0, fgets]
    | succ m =>
      simp only [discoverLoop]
      cases h : fgets st.fp with
      | none => rfl
      | some p =>
        obtain ⟨l, rest⟩ := p
        have h1 := fgets_length h
        have h2 := discoverStep_fp env { st with line := l, fp := rest }
        simp only []
        rw [ih m _ (by simp at h2; omega) (by simp at h2; omega)]

theorem discoverRun_step (env : Env) (st : State) (l rest : List Char)
    (h : fgets st.fp = some (l, rest)) :
    discoverRun env st
      = if (discoverStep env { st with line := l, fp := rest }).got_natoms
            && (discoverStep env { st with line := l, fp := rest }).got_coordpos then
          discoverStep env { st with line := l, fp := rest }
        else discoverRun env (discoverStep env { st with line := l, fp := rest }) := by
  have h1 := fgets_length h
  have h2 := discoverStep_fp env { st with line := l, fp := rest }
  obtain ⟨n, hn⟩ : ∃ n, st.fp.length = n + 1 := ⟨st.fp.length - 1, by omega⟩
  unfold discoverRun
  rw [hn]
  simp only [discoverLoop, h]
  rw [discoverLoop_fuel env n _ _ (by simp at h2; omega) (Nat.le_refl _)]

/-- A line that the discovery pass passes over: it does not begin with `ITEM`,
or it is a marker other than the two the pass looks for. -/
theorem discoverRun_skip (env : Env) (st : State) (c rest : List Char) (hc : FitsBuffer c)
    (hfp : st.fp = textLine c ++ rest) (hpos : st.got_coordpos = false)
    (hskip : strncmp0 (buf c) "ITEM".toList 4 = false ∨
      (strncmp0 (buf c) "ITEM: NUMBER OF ATOMS".toList 21 = false ∧
        strncmp0 (buf c) "ITEM: ATOMS".toList 11 = false)) :
    discoverRun env st = discoverRun env { st with line := buf c, fp := rest } := by
  have e : discoverStep env { st with line := buf c, fp := rest }
      = { st with line := buf c, fp := rest } := by
    unfold discoverStep
    rcases hskip with h | ⟨h1, h2⟩
    · simp only [h, Bool.false_eq_true, if_false]
    · simp only [h1, h2, Bool.false_eq_true, if_false, ite_self]
  rw [discoverRun_step env st (buf c) rest (by rw [hfp, fgets_textLine c hc rest]), e]
  simp [hpos]

theorem not_item_of_int (l : List Char) (h : (sscanf_d l).isSome = true) :
    strncmp0 l "ITEM".toList 4 = false := by
  cases l with
  | nil => rfl
  | cons a t =>
    by_cases ha : a = 'I'
    · subst ha
      simp [sscanf_d, isspace, readSign, isdigit] at h
    · simp [strncmp0, ha]

theorem not_item_of_float (l : List Char) (h : (sscanf_ff l).1.isSome = true) :
    strncmp0 l "ITEM".toList 4 = false := by
  cases l with
  | nil => rfl
  | cons a t =>
    by_cases ha : a = 'I'
    · subst ha
      simp [sscanf_ff, strtod, isspace, readSign, isdigit] at h
    · simp [strncmp0, ha]

theorem not_item_of_two (c : List Char) (h : TwoNumbers c) :
    strncmp0 (buf c) "ITEM".toList 4 = false :=
  not_item_of_float (buf c) h.1

theorem discoverRun_timestep (env : Env) (st : State) (c rest : List Char)
    (hc : FitsBuffer c) (hint : (sscanf_d (buf c)).isSome = true)
    (hpos : st.got_coordpos = false)
    (hfp : st.fp = textLine "ITEM: TIMESTEP".toList ++ (textLine c ++ rest)) :
    discoverRun env st = discoverRun env { st with line := buf c, fp := rest } := by
  rw [discoverRun_skip env st _ _ (by decide) hfp hpos (Or.inr (by decide))]
  refine Eq.trans (discoverRun_skip env _ c rest hc rfl ?_ ?_) ?_
  · exact hpos
  · exact Or.inl (not_item_of_int _ hint)
  · rfl

theorem discoverRun_bounds (env : Env) (st : State) (c1 c2 c3 rest : List Char)
    (h1 : FitsBuffer c1) (h2 : FitsBuffer c2) (h3 : FitsBuffer c3)
    (t1 : TwoNumbers c1) (t2 : TwoNumbers c2) (t3 : TwoNumbers c3)
    (hpos : st.got_coordpos = false)
    (hfp : st.fp = textLine "ITEM: BOX BOUNDS pp pp pp".toList ++
      (textLine c1 ++ (textLine c2 ++ (textLine c3 ++ rest)))) :
    discoverRun env st = discoverRun env { st with line := buf c3, fp := rest } := by
  rw [discoverRun_skip env st _ _ (by decide) hfp hpos (Or.inr (by decide))]
  refine Eq.trans (discoverRun_skip env _ c1 _ h1 rfl ?_ ?_) ?_
  · exact hpos
  · exact Or.inl (not_item_of_two _ t1)
  refine Eq.trans (discoverRun_skip env _ c2 _ h2 rfl ?_ ?_) ?_
  · exact hpos
  · exact Or.inl (not_item_of_two _ t2)
  refine Eq.trans (discoverRun_skip env _ c3 rest h3 rfl ?_ ?_) ?_
  · exact hpos
  · exact Or.inl (not_item_of_two _ t3)
  · rfl

theorem discoverRun_count (env : Env) (st : State) (c rest : List Char) (N : Nat)
    (hc : FitsBuffer c) (hN : sscanf_d (buf c) = some (N : Int))
    (hpos : st.got_coordpos = false)
    (hfp : st.fp = textLine "ITEM: NUMBER OF ATOMS".toList ++ (textLine c ++ rest)) :
    discoverRun env st
      = discoverRun env { st with
          line := buf c, fp := rest, natoms := N, x := env.malloc_x, v := env.malloc_v,
          got_natoms := true } := by
  have hm : strncmp0 (buf "ITEM: NUMBER OF ATOMS".toList) "ITEM: NUMBER OF ATOMS".toList 21
      = true := by
    decide
  have hi : strncmp0 (buf "ITEM: NUMBER OF ATOMS".toList) "ITEM".toList 4 = true := by
    decide
  have e : discoverStep env
      { st with line := buf "ITEM: NUMBER OF ATOMS".toList, fp := textLine c ++ rest }
      = { st with
          line := buf c, fp := rest, natoms := N, x := env.malloc_x, v := env.malloc_v,
          got_natoms := true } := by
    have ef := fgetsLine_textLine
      { st with line := buf "ITEM: NUMBER OF ATOMS".toList, fp := textLine c ++ rest }
      c rest hc rfl
    simp only [discoverStep, hm, hi, if_true, ef, hN, Option.getD_some]
  rw [discoverRun_step env st _ _ (by rw [hfp, fgets_textLine _ (by decide) _]), e]
  simp [hpos]

theorem discoverRun_atoms (env : Env) (st : State) (cols rest : List Char)
    (hm : FitsBuffer ("ITEM: ATOMS".toList ++ cols)) (hnat : st.got_natoms = true)
    (hfp : st.fp = textLine ("ITEM: ATOMS".toList ++ cols) ++ rest) :
    discoverRun env st
      = { st with
          index_xuyuzuvxvyvz := resolve (buf ("ITEM: ATOMS".toList ++ cols)) st.index_xuyuzuvxvyvz
          line := strtokResidue (buf ("ITEM: ATOMS".toList ++ cols))
          fp := rest
          got_coordpos := true } := by
  obtain ⟨h1, h2, -, -⟩ := marker_atoms (atomsMarker_test cols)
  have e : discoverStep env
      { st with line := buf ("ITEM: ATOMS".toList ++ cols), fp := rest }
      = { st with
          index_xuyuzuvxvyvz := resolve (buf ("ITEM: ATOMS".toList ++ cols)) st.index_xuyuzuvxvyvz
          line := strtokResidue (buf ("ITEM: ATOMS".toList ++ cols))
          fp := rest
          got_coordpos := true } := by
    simp only [discoverStep, h1, h2, atomsMarker_test cols, if_true, if_false,
      Bool.false_eq_true]
  rw [discoverRun_step env st _ _ (by rw [hfp, fgets_textLine _ hm _]), e]
  simp [hnat]

/-- The discovery pass on a dump that begins with a well-formed frame: it stops
after the marker line of the atom data with the atom count of the frame and
the columns resolved from that line. -/
theorem discover_frame (env : Env) (N : Nat) (fr : DumpFrame) (hwf : fr.WellFormed N)
    (rest : List Char) :
    discover env (fr.text ++ rest)
      = { init env with
          fp := (fr.atoms.map textLine).flatten ++ rest
          line := strtokResidue (buf fr.atomsMarker)
          index_xuyuzuvxvyvz := resolve (buf fr.atomsMarker) env.index0
          natoms := N
          got_natoms := true
          got_coordpos := true } := by
  obtain ⟨⟨hs, hs2⟩, ⟨hc, hc2⟩, ⟨hx, hx2⟩, ⟨hy, hy2⟩, ⟨hz, hz2⟩, hm, -, -⟩ := hwf
  have key : ∀ st : State, st.got_coordpos = false → st.fp = fr.text ++ rest →
      discoverRun env st
        = { st with
            fp := (fr.atoms.map textLine).flatten ++ rest
            line := strtokResidue (buf fr.atomsMarker)
            index_xuyuzuvxvyvz := resolve (buf fr.atomsMarker) st.index_xuyuzuvxvyvz
            natoms := N
            x := env.malloc_x
            v := env.malloc_v
            got_natoms := true
            got_coordpos := true } := by
    intro st hpos hfp
    cases hord : fr.order <;>
      simp only [DumpFrame.text, hord, DumpFrame.timestepText, DumpFrame.countText,
        DumpFrame.boundsText, DumpFrame.atomsText, List.append_assoc] at hfp
    · refine Eq.trans (discoverRun_timestep env _ _ _ hs hs2 hpos hfp) ?_
      refine Eq.trans (discoverRun_count env _ _ _ N hc hc2 hpos rfl) ?_
      refine Eq.trans (discoverRun_bounds env _ _ _ _ _ hx hy hz hx2 hy2 hz2 hpos rfl) ?_
      exact discoverRun_atoms env _ _ _ hm rfl rfl
    · refine Eq.trans (discoverRun_timestep env _ _ _ hs hs2 hpos hfp) ?_
      refine Eq.trans (discoverRun_bounds env _ _ _ _ _ hx hy hz hx2 hy2 hz2 hpos rfl) ?_
      refine Eq.trans (discoverRun_count env _ _ _ N hc hc2 hpos rfl) ?_
      exact discoverRun_atoms env _ _ _ hm rfl rfl
    · refine Eq.trans (discoverRun_count env _ _ _ N hc hc2 hpos hfp) ?_
      refine Eq.trans (discoverRun_timestep env _ _ _ hs hs2 hpos rfl) ?_
      refine Eq.trans (discoverRun_bounds env _ _ _ _ _ hx hy hz hx2 hy2 hz2 hpos rfl) ?_
      exact discoverRun_atoms env _ _ _ hm rfl rfl
    · refine Eq.trans (discoverRun_count env _ _ _ N hc hc2 hpos hfp) ?_
      refine Eq.trans (discoverRun_bounds env _ _ _ _ _ hx hy hz hx2 hy2 hz2 hpos rfl) ?_
      refine Eq.trans (discoverRun_timestep env _ _ _ hs hs2 hpos rfl) ?_
      exact discoverRun_atoms env _ _ _ hm rfl rfl
    · refine Eq.trans (discoverRun_bounds env _ _ _ _ _ hx hy hz hx2 hy2 hz2 hpos hfp) ?_
      refine Eq.trans (discoverRun_timestep env _ _ _ hs hs2 hpos rfl) ?_
      refine Eq.trans (discoverRun_count env _ _ _ N hc hc2 hpos rfl) ?_
      exact discoverRun_atoms env _ _ _ hm rfl rfl
    · refine Eq.trans (discoverRun_bounds env _ _ _ _ _ hx hy hz hx2 hy2 hz2 hpos hfp) ?_
      refine Eq.trans (discoverRun_count env _ _ _ N hc hc2 hpos rfl) ?_
      refine Eq.trans (discoverRun_timestep env _ _ _ hs hs2 hpos rfl) ?_
      exact discoverRun_atoms env _ _ _ hm rfl rfl
  exact key { init env with fp := fr.text ++ rest } rfl rfl

/-! ## Where the tokens of a data line go -/

theorem storeToken_x (lb : Fin 6 → ℚ) (j : Nat) (tok : List Char) (i : Fin 6) (b : Buffers)
    (a : Nat) (k : Fin 3) :
    (storeToken lb j tok i b).x a k
      = if a = j ∧ i = posField k then (atof tok - lb (lowerBound k)) / 10 else b.x a k := by
  by_cases ha : a = j
  · subst ha
    fin_cases i <;> fin_cases k <;>
      simp [storeToken, setCell, Function.update, posField, lowerBound]
  · fin_cases i <;> simp [storeToken, setCell, Function.update, ha]

theorem storeToken_v (lb : Fin 6 → ℚ) (j : Nat) (tok : List Char) (i : Fin 6) (b : Buffers)
    (a : Nat) (k : Fin 3) :
    (storeToken lb j tok i b).v a k
      = if a = j ∧ i = velField k then atof tok * 100 else b.v a k := by
  by_cases ha : a = j
  · subst ha
    fin_cases i <;> fin_cases k <;>
      simp [storeToken, setCell, Function.update, velField]
  · fin_cases i <;> simp [storeToken, setCell, Function.update, ha]

theorem foldl_store_x (index : Fin 6 → Int) (lb : Fin 6 → ℚ) (j : Nat) (tok : List Char)
    (col : Int) (l : List (Fin 6)) (b : Buffers) (a : Nat) (k : Fin 3) :
    (l.foldl (fun s i => if col = index i then storeToken lb j tok i s else s) b).x a k
      = if a = j ∧ col = index (posField k) ∧ posField k ∈ l then
          (atof tok - lb (lowerBound k)) / 10
        else b.x a k := by
  induction l generalizing b with
  | nil => simp
  | cons i l ih =>
    rw [List.foldl_cons, ih]
    by_cases hc : col = index i
    · rw [if_pos hc, storeToken_x]
      by_cases hi : i = posField k
      · subst hi
        by_cases ha : a = j <;> simp [ha, hc]
      · have hi' : ¬ posField k = i := fun e => hi e.symm
        simp [hi, hi']
    · rw [if_neg hc]
      by_cases hi : i = posField k
      · subst hi
        simp [hc]
      · have hi' : ¬ posField k = i := fun e => hi e.symm
        simp [hi']

theorem foldl_store_v (index : Fin 6 → Int) (lb : Fin 6 → ℚ) (j : Nat) (tok : List Char)
    (col : Int) (l : List (Fin 6)) (b : Buffers) (a : Nat) (k : Fin 3) :
    (l.foldl (fun s i => if col = index i then storeToken lb j tok i s else s) b).v a k
      = if a = j ∧ col = index (velField k) ∧ velField k ∈ l then atof tok * 100
        else b.v a k := by
  induction l generalizing b with
  | nil => simp
  | cons i l ih =>
    rw [List.foldl_cons, ih]
    by_cases hc : col = index i
    · rw [if_pos hc, storeToken_v]
      by_cases hi : i = velField k
      · subst hi
        by_cases ha : a = j <;> simp [ha, hc]
      · have hi' : ¬ velField k = i := fun e => hi e.symm
        simp [hi, hi']
    · rw [if_neg hc]
      by_cases hi : i = velField k
      · subst hi
        simp [hc]
      · have hi' : ¬ velField k = i := fun e => hi e.symm
        simp [hi']

theorem scanToken_x (index : Fin 6 → Int) (lb : Fin 6 → ℚ) (j : Nat) (tok : List Char)
    (col : Int) (b : Buffers) (a : Nat) (k : Fin 3) :
    (scanToken index lb j tok col b).x a k
      = if a = j ∧ col = index (posField k) then (atof tok - lb (lowerBound k)) / 10
        else b.x a k := by
  rw [scanToken, foldl_store_x]
  simp [List.mem_finRange]

theorem scanToken_v (index : Fin 6 → Int) (lb : Fin 6 → ℚ) (j : Nat) (tok : List Char)
    (col : Int) (b : Buffers) (a : Nat) (k : Fin 3) :
    (scanToken index lb j tok col b).v a k
      = if a = j ∧ col = index (velField k) then atof tok * 100 else b.v a k := by
  rw [scanToken, foldl_store_v]
  simp [List.mem_finRange]

theorem tokenAt_cons (t : List Char) (rest : List (List Char)) (c : Int) :
    tokenAt (t :: rest) c = if c = 0 then some t else tokenAt rest (c - 1) := by
  unfold tokenAt
  by_cases h0 : c = 0
  · subst h0
    simp
  · rw [if_neg h0]
    by_cases hpos : 0 ≤ c
    · have h1 : 0 ≤ c - 1 := by omega
      obtain ⟨n, hn⟩ : ∃ n : Nat, c.toNat = n + 1 := ⟨c.toNat - 1, by omega⟩
      have h2 : (c - 1).toNat = n := by omega
      simp [hpos, h1, hn, h2]
    · have h1 : ¬ 0 ≤ c - 1 := by omega
      simp [hpos, h1]

theorem scanTokens_x (index : Fin 6 → Int) (lb : Fin 6 → ℚ) (j : Nat)
    (toks : List (List Char)) (col : Int) (b : Buffers) (a : Nat) (k : Fin 3) :
    (scanTokens index lb j toks col b).x a k
      = if a = j then
          ((tokenAt toks (index (posField k) - col)).map
            (fun tok => (atof tok - lb (lowerBound k)) / 10)).getD (b.x a k)
        else b.x a k := by
  induction toks generalizing col b with
  | nil => simp [scanTokens, tokenAt]
  | cons t rest ih =>
    rw [scanTokens, ih, scanToken_x, tokenAt_cons]
    by_cases ha : a = j
    · by_cases hc : col = index (posField k)
      · have e : tokenAt rest (-1) = none := by
          unfold tokenAt
          rw [if_neg (by omega)]
        simp [ha, hc, e]
      · have h0 : ¬ index (posField k) - col = 0 := by omega
        have e : index (posField k) - (col + 1) = index (posField k) - col - 1 := by ring
        simp [ha, hc, h0, e]
    · simp [ha]

theorem scanTokens_v (index : Fin 6 → Int) (lb : Fin 6 → ℚ) (j : Nat)
    (toks : List (List Char)) (col : Int) (b : Buffers) (a : Nat) (k : Fin 3) :
    (scanTokens index lb j toks col b).v a k
      = if a = j then
          ((tokenAt toks (index (velField k) - col)).map
            (fun tok => atof tok * 100)).getD (b.v a k)
        else b.v a k := by
  induction toks generalizing col b with
  | nil => simp [scanTokens, tokenAt]
  | cons t rest ih =>
    rw [scanTokens, ih, scanToken_v, tokenAt_cons]
    by_cases ha : a = j
    · by_cases hc : col = index (velField k)
      · have e : tokenAt rest (-1) = none := by
          unfold tokenAt
          rw [if_neg (by omega)]
        simp [ha, hc, e]
      · have h0 : ¬ index (velField k) - col = 0 := by omega
        have e : index (velField k) - (col + 1) = index (velField k) - col - 1 := by ring
        simp [ha, hc, h0, e]
    · simp [ha]

theorem scanLine_x (j : Nat) (st : State) (a : Nat) (k : Fin 3) :
    (scanLine j st).x a k
      = if a = j then
          ((tokenAt (strtok st.line) (st.index_xuyuzuvxvyvz (posField k))).map
            (fun tok => (atof tok - st.lammps_box (lowerBound k)) / 10)).getD (st.x a k)
        else st.x a k := by
  show (scanTokens _ _ _ _ _ _).x a k = _
  rw [scanTokens_x]
  simp

theorem scanLine_v (j : Nat) (st : State) (a : Nat) (k : Fin 3) :
    (scanLine j st).v a k
      = if a = j then
          ((tokenAt (strtok st.line) (st.index_xuyuzuvxvyvz (velField k))).map
            (fun tok => atof tok * 100)).getD (st.v a k)
        else st.v a k := by
  show (scanTokens _ _ _ _ _ _).v a k = _
  rw [scanTokens_v]
  simp

/-- The position cells after the loop over the atoms: the cell of atom `a`
and axis `k` holds the converted token of the line of atom `a` at the column
of the field, or its old value when the line has no token there. -/
theorem scanLines_x (bufs : List (List Char)) (j : Nat) (st : State) (a : Nat) (k : Fin 3) :
    (scanLines bufs j st).x a k
      = if j ≤ a then
          match bufs[a - j]? with
          | some l =>
            ((tokenAt (strtok l) (st.index_xuyuzuvxvyvz (posField k))).map
              (fun tok => (atof tok - st.lammps_box (lowerBound k)) / 10)).getD (st.x a k)
          | none => st.x a k
        else st.x a k := by
  induction bufs generalizing j st with
  | nil => simp [scanLines]
  | cons b bs ih =>
    rw [scanLines, ih]
    have e1 : (scanLine j { st with line := b }).index_xuyuzuvxvyvz = st.index_xuyuzuvxvyvz := rfl
    have e2 : (scanLine j { st with line := b }).lammps_box = st.lammps_box := rfl
    rw [e1, e2, scanLine_x]
    by_cases h1 : j + 1 ≤ a
    · have h2 : j ≤ a := by omega
      have h3 : ¬ a = j := by omega
      obtain ⟨m, hm⟩ : ∃ m, a - j = m + 1 := ⟨a - j - 1, by omega⟩
      have h4 : a - (j + 1) = m := by omega
      simp [h1, h2, h3, hm, h4]
    · by_cases h2 : a = j
      · subst h2
        simp
      · have h3 : ¬ j ≤ a := by omega
        simp [h1, h2, h3]

theorem scanLines_v (bufs : List (List Char)) (j : Nat) (st : State) (a : Nat) (k : Fin 3) :
    (scanLines bufs j st).v a k
      = if j ≤ a then
          match bufs[a - j]? with
          | some l =>
            ((tokenAt (strtok l) (st.index_xuyuzuvxvyvz (velField k))).map
              (fun tok => atof tok * 100)).getD (st.v a k)
          | none => st.v a k
        else st.v a k := by
  induction bufs generalizing j st with
  | nil => simp [scanLines]
  | cons b bs ih =>
    rw [scanLines, ih]
    have e1 : (scanLine j { st with line := b }).index_xuyuzuvxvyvz = st.index_xuyuzuvxvyvz := rfl
    rw [e1, scanLine_v]
    by_cases h1 : j + 1 ≤ a
    · have h2 : j ≤ a := by omega
      have h3 : ¬ a = j := by omega
      obtain ⟨m, hm⟩ : ∃ m, a - j = m + 1 := ⟨a - j - 1, by omega⟩
      have h4 : a - (j + 1) = m := by omega
      simp [h1, h2, h3, hm, h4]
    · by_cases h2 : a = j
      · subst h2
        simp
      · have h3 : ¬ j ≤ a := by omega
        simp [h1, h2, h3]

/-! ## The frames written for a well-formed dump -/

theorem convertBox_apply (lb : Fin 6 → ℚ) (box : Fin 3 → Fin 3 → ℚ) (i j : Fin 3) :
    convertBox lb box i j
      = if i = j then (lb (upperBound i) - lb (lowerBound i)) / 10 else box i j := by
  fin_cases i <;> fin_cases j <;> simp [convertBox, Function.update, upperBound, lowerBound]

/-- What holds of the variables all through the main pass over a well-formed
dump of frames with `N` atoms. -/
theorem afterFrames_frames (env : Env) (I : State → Prop) (Q : DumpFrame → Frame → Prop)
    (frames : List DumpFrame)
    (hI : ∀ fr ∈ frames, ∀ rest st, I st → I (frameEffect env fr rest st))
    (hQ : ∀ fr ∈ frames, ∀ rest st, I st → Q fr (currentFrame env (beforeWrite fr rest st)))
    (st : State) (h0 : I st) :
    ∃ fs, (afterFrames env frames st).trj_out = st.trj_out ++ fs ∧
      List.Forall₂ Q frames fs := by
  induction frames generalizing st with
  | nil => exact ⟨[], by simp [afterFrames], List.Forall₂.nil⟩
  | cons fr frs ih =>
    obtain ⟨fs, h1, h2⟩ := ih (fun g hg => hI g (by simp [hg])) (fun g hg => hQ g (by simp [hg]))
      (frameEffect env fr (dumpText frs) st) (hI fr (by simp) _ st h0)
    refine ⟨currentFrame env (beforeWrite fr (dumpText frs) st) :: fs, ?_,
      List.Forall₂.cons (hQ fr (by simp) _ st h0) h2⟩
    rw [afterFrames, h1]
    have e : (beforeWrite fr (dumpText frs) st).trj_out = st.trj_out :=
      (scanLines_same _ _ _).1.2.2.2.2.2.2.1
    simp [frameEffect, writeFrame, e]

/-- The state in which the main pass starts on a well-formed dump. -/
theorem discover_dump (env : Env) (N : Nat) (frames : List DumpFrame)
    (hwf : ∀ fr ∈ frames, fr.WellFormed N) (hne : frames ≠ []) :
    (discover env (dumpText frames)).natoms = N ∧
    (discover env (dumpText frames)).index_xuyuzuvxvyvz = dumpIndex env frames := by
  cases frames with
  | nil => exact absurd rfl hne
  | cons fr frs =>
    have e : dumpText (fr :: frs) = fr.text ++ dumpText frs := by simp [dumpText]
    rw [e, discover_frame env N fr (hwf fr (by simp))]
    exact ⟨rfl, rfl⟩

/-- The frames written for a well-formed dump stand in the order of the
frames of the dump, one for one, and a relation that holds between a frame of
the dump and the frame written for it in every state the main pass can be in
holds between each pair. -/
theorem dump_frames (env : Env) (N : Nat) (frames : List DumpFrame)
    (hwf : ∀ fr ∈ frames, fr.WellFormed N) (Q : DumpFrame → Frame → Prop)
    (hQ : ∀ fr ∈ frames, ∀ rest st, st.natoms = (N : Int) →
      st.index_xuyuzuvxvyvz = dumpIndex env frames → (∀ i j, i ≠ j → st.box i j = 0) →
      Q fr (currentFrame env (beforeWrite fr rest st))) :
    List.Forall₂ Q frames (framesWritten env (dumpText frames)) := by
  by_cases hne : frames = []
  · subst hne
    exact List.Forall₂.nil
  · obtain ⟨d1, d2⟩ := discover_dump env N frames hwf hne
    obtain ⟨-, -, d3, d4, -⟩ := discover_main env (dumpText frames)
    unfold framesWritten mainPass
    rw [run_frames env N frames hwf { discover env (dumpText frames) with fp := dumpText frames }
      d1 rfl]
    obtain ⟨fs, h1, h2⟩ := afterFrames_frames env
      (fun st => st.natoms = (N : Int) ∧ st.index_xuyuzuvxvyvz = dumpIndex env frames ∧
        ∀ i j, i ≠ j → st.box i j = 0)
      Q frames
      (fun fr _ rest st hst => by
        obtain ⟨e1, e2, -⟩ := frameEffect_natoms env fr rest st
        refine ⟨e1.trans hst.1, e2.trans hst.2.1, fun i j hij => ?_⟩
        have e3 : (frameEffect env fr rest st).box = convertBox fr.bounds st.box :=
          (scanLines_same _ _ _).1.2.2.2.2.1
        rw [e3, convertBox_apply, if_neg hij]
        exact hst.2.2 i j hij)
      (fun fr hfr rest st hst => hQ fr hfr rest st hst.1 hst.2.1 hst.2.2)
      { discover env (dumpText frames) with fp := dumpText frames }
      ⟨d1, d2, fun i j _ => by simp [d3]⟩
    rw [h1]
    simpa [d4] using h2

theorem beforeWrite_vars (fr : DumpFrame) (rest : List Char) (st : State) :
    (beforeWrite fr rest st).step = (sscanf_d (buf fr.stepLine)).getD st.step ∧
    (beforeWrite fr rest st).natoms = st.natoms ∧
    (beforeWrite fr rest st).box = convertBox fr.bounds st.box ∧
    (beforeWrite fr rest st).lammps_box = fr.bounds ∧
    (beforeWrite fr rest st).index_xuyuzuvxvyvz = st.index_xuyuzuvxvyvz := by
  obtain ⟨⟨h1, h2, h3, h4, h5, -⟩, -⟩ := scanLines_same (fr.atoms.map buf) 0
    { st with
      line := buf fr.atomsMarker
      fp := rest
      step := (sscanf_d (buf fr.stepLine)).getD st.step
      lammps_box := fr.bounds
      box := convertBox fr.bounds st.box }
  exact ⟨h3, h2, h5, h4, h1⟩

theorem readAtoms_snoc (n j : Nat) (st : State) :
    readAtoms (n + 1) j st = readAtom (j + n) (readAtoms n j st) := by
  induction n generalizing j st with
  | zero => rfl
  | succ n ih =>
    rw [readAtoms, ih (j + 1) (readAtom j st)]
    have e : j + 1 + n = j + (n + 1) := by omega
    rw [e]
    rfl

theorem readAtom_x (j : Nat) (st : State) (a : Nat) (k : Fin 3) :
    (readAtom j st).x a k
      = if a = j then
          ((tokenAt (strtok (fgetsLine st).line) (st.index_xuyuzuvxvyvz (posField k))).map
            (fun tok => (atof tok - st.lammps_box (lowerBound k)) / 10)).getD (st.x a k)
        else st.x a k := by
  rw [readAtom, scanLine_x, (fgetsLine_same st).1, (fgetsLine_same st).2.2.2.1,
    (fgetsLine_bufs st).1]

theorem readAtom_v (j : Nat) (st : State) (a : Nat) (k : Fin 3) :
    (readAtom j st).v a k
      = if a = j then
          ((tokenAt (strtok (fgetsLine st).line) (st.index_xuyuzuvxvyvz (velField k))).map
            (fun tok => atof tok * 100)).getD (st.v a k)
        else st.v a k := by
  rw [readAtom, scanLine_v, (fgetsLine_same st).1, (fgetsLine_bufs st).2.1]

/-- The position cells after the loop over `n` atoms, on any input: the cell
of atom `a` and axis `k` holds the converted token of the line read for atom
`a` at the column of the field, or its old value when that line has no token
there or `a` is not among the atoms read. -/
theorem readAtoms_x (n : Nat) (st : State) (a : Nat) (k : Fin 3) :
    (readAtoms n 0 st).x a k
      = if a < n then
          ((tokenAt (strtok (atomLine a st)) (st.index_xuyuzuvxvyvz (posField k))).map
            (fun tok => (atof tok - st.lammps_box (lowerBound k)) / 10)).getD (st.x a k)
        else st.x a k := by
  induction n with
  | zero => simp [readAtoms]
  | succ n ih =>
    rw [readAtoms_snoc, readAtom_x, ih, (readAtoms_same n 0 st).1,
      (readAtoms_same n 0 st).2.2.2.1]
    simp only [Nat.zero_add]
    by_cases h1 : a = n
    · subst h1
      simp [atomLine]
    · by_cases h2 : a < n
      · have h3 : a < n + 1 := by omega
        simp [h1, h2, h3]
      · have h3 : ¬ a < n + 1 := by omega
        simp [h1, h2, h3]

theorem readAtoms_v (n : Nat) (st : State) (a : Nat) (k : Fin 3) :
    (readAtoms n 0 st).v a k
      = if a < n then
          ((tokenAt (strtok (atomLine a st)) (st.index_xuyuzuvxvyvz (velField k))).map
            (fun tok => atof tok * 100)).getD (st.v a k)
        else st.v a k := by
  induction n with
  | zero => simp [readAtoms]
  | succ n ih =>
    rw [readAtoms_snoc, readAtom_v, ih, (readAtoms_same n 0 st).1]
    simp only [Nat.zero_add]
    by_cases h1 : a = n
    · subst h1
      simp [atomLine]
    · by_cases h2 : a < n
      · have h3 : a < n + 1 := by omega
        simp [h1, h2, h3]
      · have h3 : ¬ a < n + 1 := by omega
        simp [h1, h2, h3]

theorem currentFrame_x (env : Env) (st : State) (a : Nat) (h : a < st.natoms.toNat) :
    (currentFrame env st).x[a]? = some (st.x a) ∧ (currentFrame env st).v[a]? = some (st.v a) := by
  simp [currentFrame, h]

/-! ## Velocities and positions -/

theorem beforeWrite_cells (fr : DumpFrame) (rest : List Char) (st : State) (a : Nat)
    (l : List Char) (k : Fin 3) (hl : fr.atoms[a]? = some l) :
    (beforeWrite fr rest st).x a k
      = ((tokenAt (strtok (buf l)) (st.index_xuyuzuvxvyvz (posField k))).map
          (fun tok => (atof tok - fr.bounds (lowerBound k)) / 10)).getD (st.x a k) ∧
    (beforeWrite fr rest st).v a k
      = ((tokenAt (strtok (buf l)) (st.index_xuyuzuvxvyvz (velField k))).map
          (fun tok => atof tok * 100)).getD (st.v a k) := by
  have e : (fr.atoms.map buf)[a - 0]? = some (buf l) := by simp [hl]
  unfold beforeWrite
  rw [scanLines_x, scanLines_v, if_pos (Nat.zero_le a), if_pos (Nat.zero_le a), e]
  exact ⟨rfl, rfl⟩

/-- C3, as the code has it: in the frame written for a well-formed frame of a
dump, all of whose lines fit the line buffer, the velocity of atom `a` along
axis `k` is 100 times the number written by the token of the
data line of atom `a` that stands at the column bound to that velocity
component, when the line has a token there; the bounds of the box do not enter.
The columns are those the discovery pass resolved from the header of the first
frame. On any input, the same holds of the frame a turn of the main loop
writes and the line the loop over the atoms read for atom `a`. -/
theorem velocity_scaled (env : Env) (N : Nat) (frames : List DumpFrame)
    (hwf : ∀ fr ∈ frames, fr.WellFormed N) :
    List.Forall₂
      (fun fr f => ∀ (a : Nat) (l : List Char) (k : Fin 3) (tok : List Char),
        fr.atoms[a]? = some l →
        tokenAt (strtok (buf l)) (dumpIndex env frames (velField k)) = some tok →
        ∃ r, f.v[a]? = some r ∧ r k = atof tok * 100)
      frames (framesWritten env (dumpText frames)) ∧
    (frames ≠ [] →
      (discover env (dumpText frames)).index_xuyuzuvxvyvz = dumpIndex env frames) ∧
    ∀ st : State, strncmp0 st.line "ITEM: ATOMS".toList 11 = true →
      ∀ (a : Nat) (k : Fin 3) (tok : List Char), a < st.natoms.toNat →
        tokenAt (strtok (atomLine a st)) (st.index_xuyuzuvxvyvz (velField k)) = some tok →
        ∃ f r, (mainStep env st).trj_out = st.trj_out ++ [f] ∧
          f.v[a]? = some r ∧ r k = atof tok * 100 := by
  refine ⟨?_, fun hne => (discover_dump env N frames hwf hne).2, ?_⟩
  · refine dump_frames env N frames hwf _ (fun fr hfr rest st hn hidx _ => ?_)
    intro a l k tok hl htok
    obtain ⟨-, hnat, -⟩ := beforeWrite_vars fr rest st
    have ha : a < fr.atoms.length := by
      rcases Nat.lt_or_ge a fr.atoms.length with h | h
      · exact h
      · rw [List.getElem?_eq_none h] at hl
        exact absurd hl (by simp)
    have ha2 : a < (beforeWrite fr rest st).natoms.toNat := by
      rw [hnat, hn, (hwf fr hfr).2.2.2.2.2.2.2] at *
      simpa using ha
    refine ⟨(beforeWrite fr rest st).v a, (currentFrame_x env _ a ha2).2, ?_⟩
    rw [(beforeWrite_cells fr rest st a l k hl).2, hidx, htok]
    rfl
  · intro st hm a k tok ha htok
    rw [mainStep_atoms env st hm]
    have hnat : (readAtoms st.natoms.toNat 0 st).natoms = st.natoms :=
      (readAtoms_same _ _ st).2.1
    refine ⟨currentFrame env (readAtoms st.natoms.toNat 0 st),
      (readAtoms st.natoms.toNat 0 st).v a, ?_, ?_, ?_⟩
    · simp [writeFrame, (readAtoms_same st.natoms.toNat 0 st).2.2.2.2.2.2.1]
    · exact (currentFrame_x env _ a (by rw [hnat]; exact ha)).2
    · rw [readAtoms_v, if_pos ha, htok]
      rfl

/-- C3 on the two frames of `frames3`: the velocities of the first frame are
100 times the last three tokens of its data lines; in the second frame the
line of the second atom has no velocity tokens, and nothing is claimed there. -/
theorem velocity_scaled_witness :
    List.Forall₂
      (fun fr f => ∀ (a : Nat) (l : List Char) (k : Fin 3) (tok : List Char),
        fr.atoms[a]? = some l →
        tokenAt (strtok (buf l)) (dumpIndex env0 frames3 (velField k)) = some tok →
        ∃ r, f.v[a]? = some r ∧ r k = atof tok * 100)
      frames3 (framesWritten env0 (dumpText frames3)) ∧
    (framesWritten env0 (dumpText frames3)).map (fun f => f.v.map (fun r => (r 0, r 1, r 2)))
      = [[(10, 20, 30), (-10, -20, -30)], [(50, 50, 50), (-10, -20, -30)]] :=
  ⟨(velocity_scaled env0 2 frames3 (by decide!)).1, by decide!⟩

/-- A field that some token of the header binds gets the column of one of the
tokens that match it. -/
theorem bindTokens_bound (f : Fin 6) (toks : List (List Char)) (column : Int)
    (index : Fin 6 → Int)
    (h : ∃ t ∈ toks, strncmp0 t (strings_xuyuzuvxvyvz f) 2 = true) :
    ∃ (p : Nat) (hp : p < toks.length),
      strncmp0 (toks.get ⟨p, hp⟩) (strings_xuyuzuvxvyvz f) 2 = true ∧
      bindTokens toks column index f = column + p - 2 := by
  induction toks generalizing column index with
  | nil =>
    obtain ⟨t, ht, -⟩ := h
    simp at ht
  | cons t rest ih =>
    by_cases hr : ∃ u ∈ rest, strncmp0 u (strings_xuyuzuvxvyvz f) 2 = true
    · obtain ⟨p, hp, hm, hb⟩ := ih (column + 1) (bindToken t column index) hr
      refine ⟨p + 1, by simpa using hp, by simpa using hm, ?_⟩
      rw [bindTokens, hb]
      push_cast
      ring
    · have hnone : ∀ u ∈ rest, strncmp0 u (strings_xuyuzuvxvyvz f) 2 = false := by
        intro u hu
        cases hs : strncmp0 u (strings_xuyuzuvxvyvz f) 2
        · rfl
        · exact absurd ⟨u, hu, hs⟩ hr
      have ht : strncmp0 t (strings_xuyuzuvxvyvz f) 2 = true := by
        obtain ⟨u, hu, hs⟩ := h
        rcases List.mem_cons.1 hu with e | e
        · rw [← e]; exact hs
        · rw [hnone u e] at hs
          exact absurd hs (by simp)
      refine ⟨0, by simp, by simpa using ht, ?_⟩
      rw [bindTokens, bindTokens_none f rest _ _ hnone, bindToken_apply, if_pos ht]
      simp

theorem one_name_per_token (t : List Char) (f g : Fin 6)
    (hf : strncmp0 t (strings_xuyuzuvxvyvz f) 2 = true)
    (hg : strncmp0 t (strings_xuyuzuvxvyvz g) 2 = true) : f = g := by
  rw [strncmp0_two] at hf hg
  have e : strings_xuyuzuvxvyvz f = strings_xuyuzuvxvyvz g := hf.symm.trans hg
  revert e
  fin_cases f <;> fin_cases g <;> decide

/-- C17: on every header line, two different fields that are both bound, each
by some token of the line, get different column indices, because a token
begins with the two characters of at most one of the names xu, yu, zu, vx,
vy, vz; so the column of a token of a data line is the index of at most one
of the two fields, and the token is stored for at most one of them. -/
theorem bound_fields_distinct (line : List Char) (index : Fin 6 → Int) (f g : Fin 6)
    (hfg : f ≠ g)
    (hf : ∃ t ∈ strtok line, strncmp0 t (strings_xuyuzuvxvyvz f) 2 = true)
    (hg : ∃ t ∈ strtok line, strncmp0 t (strings_xuyuzuvxvyvz g) 2 = true) :
    resolve line index f ≠ resolve line index g ∧
    (∀ t : List Char, ¬ (strncmp0 t (strings_xuyuzuvxvyvz f) 2 = true ∧
      strncmp0 t (strings_xuyuzuvxvyvz g) 2 = true)) ∧
    ∀ column : Int,
      ¬ (column = resolve line index f ∧ column = resolve line index g) := by
  have key : resolve line index f ≠ resolve line index g := by
    obtain ⟨p, hp, hpm, hpb⟩ := bindTokens_bound f (strtok line) 0 index hf
    obtain ⟨q, hq, hqm, hqb⟩ := bindTokens_bound g (strtok line) 0 index hg
    intro e
    simp only [resolve, hpb, hqb] at e
    have hpq : p = q := by omega
    subst hpq
    exact hfg (one_name_per_token _ f g hpm hqm)
  exact ⟨key, fun t ht => hfg (one_name_per_token t f g ht.1 ht.2),
    fun column hc => key (hc.1.symm.trans hc.2)⟩

/-- C17 on the header line of the specification: xu and vx are both bound,
to the columns 2 and 5. -/
theorem bound_fields_distinct_witness :
    resolve header8 (fun _ => 0) 0 ≠ resolve header8 (fun _ => 0) 3 ∧
    (∀ t : List Char, ¬ (strncmp0 t (strings_xuyuzuvxvyvz 0) 2 = true ∧
      strncmp0 t (strings_xuyuzuvxvyvz 3) 2 = true)) ∧
    ∀ column : Int,
      ¬ (column = resolve header8 (fun _ => 0) 0 ∧ column = resolve header8 (fun _ => 0) 3) :=
  bound_fields_distinct header8 (fun _ => 0) 0 3 (by decide) (by decide) (by decide)


/-! ## Data lines that are too short -/

theorem fgetsLine_rest (st : State) : (fgetsLine st).fp = fgetsRest st.fp := by
  unfold fgetsLine fgetsRest
  cases fgets st.fp with
  | none => rfl
  | some p => rfl

theorem readAtoms_rest (n j : Nat) (st : State) :
    (readAtoms n j st).fp = skipLines n st.fp := by
  induction n generalizing j st with
  | zero => rfl
  | succ n ih =>
    rw [readAtoms, ih, skipLines]
    show skipLines n (fgetsLine st).fp = _
    rw [fgetsLine_rest]

theorem mainLoop_natoms (env : Env) (n : Nat) (st : State) :
    (mainLoop env n st).natoms = st.natoms ∧
    (mainLoop env n st).index_xuyuzuvxvyvz = st.index_xuyuzuvxvyvz :=
  mainLoop_invariant env
    (fun s => s.natoms = st.natoms ∧ s.index_xuyuzuvxvyvz = st.index_xuyuzuvxvyvz)
    (fun _ _ _ hs =>
      ⟨(mainStep_natoms env _).1.trans hs.1, (mainStep_natoms env _).2.trans hs.2⟩)
    n st ⟨rfl, rfl⟩

/-- C14, as the code has it: a turn of the main loop never changes the atom count or the column
indices, so all through the main pass, and in every frame written, they are
the ones the discovery pass left. At an atom-count marker the turn only reads
the next line into the buffer; at an atom-data marker the header is not
resolved again and the loop over the atoms calls `fgets` exactly `natoms`
times, so when `natoms` lines that fit the buffer follow the marker, exactly
these are taken as atom data. In `dumpVary` the second frame declares two
atoms and puts the velocities before the positions: it is read as one atom
with the columns of the first frame, and its second data line is reported. -/
theorem schema_and_count_fixed (env : Env) :
    (∀ st, (mainStep env st).natoms = st.natoms ∧
      (mainStep env st).index_xuyuzuvxvyvz = st.index_xuyuzuvxvyvz) ∧
    (∀ file, (mainPass env file).natoms = (discover env file).natoms ∧
      (mainPass env file).index_xuyuzuvxvyvz = (discover env file).index_xuyuzuvxvyvz ∧
      ∀ f ∈ framesWritten env file, f.natoms = (discover env file).natoms) ∧
    (∀ st, strncmp0 st.line "ITEM: NUMBER OF ATOMS".toList 21 = true →
      mainStep env st = fgetsLine st) ∧
    (∀ st, strncmp0 st.line "ITEM: ATOMS".toList 11 = true →
      mainStep env st = writeFrame env (readAtoms st.natoms.toNat 0 st) ∧
      (mainStep env st).fp = skipLines st.natoms.toNat st.fp) ∧
    (∀ st (lines : List (List Char)) (rest : List Char),
      strncmp0 st.line "ITEM: ATOMS".toList 11 = true →
      (∀ l ∈ lines, FitsBuffer l) → lines.length = st.natoms.toNat →
      st.fp = (lines.map textLine).flatten ++ rest →
      (mainStep env st).fp = rest) ∧
    ((discover env0 dumpVary).natoms = 1 ∧
      (framesWritten env0 dumpVary).map
          (fun f => (f.natoms, f.x.map (fun r => (r 0, r 1, r 2)), f.v.map (fun r => (r 0, r 1, r 2))))
        = [(1, [(1 / 10, 2 / 10, 3 / 10)], [(10, 20, 30)]),
           (1, [(1 / 100, 2 / 100, 3 / 100)], [(400, 500, 600)])] ∧
      (mainPass env0 dumpVary).out = [unexpected]) := by
  refine ⟨mainStep_natoms env, ?_, mainStep_count env, ?_, ?_, by decide!⟩
  · intro file
    obtain ⟨h1, h2⟩ := mainLoop_natoms env file.length { discover env file with fp := file }
    refine ⟨h1, h2, fun f hf => ?_⟩
    simp only [framesWritten, mainPass, run] at hf
    exact mainLoop_frames env (fun s => s.natoms = (discover env file).natoms)
      (fun f => f.natoms = (discover env file).natoms)
      (fun s l rest hs => (mainStep_natoms env _).1.trans hs)
      (fun s l rest hs => ((readAtoms_same _ _ _).2.1).trans hs)
      file.length { discover env file with fp := file } rfl
      (by simp [(discover_main env file).2.2.2.1]) f hf
  · intro st hm
    have e := mainStep_atoms env st hm
    refine ⟨e, ?_⟩
    rw [e]
    exact readAtoms_rest _ _ st
  · intro st lines rest hm hl hlen hfp
    rw [mainStep_atoms env st hm, ← hlen]
    show (readAtoms lines.length 0 st).fp = rest
    rw [readAtoms_lines lines hl rest 0 st hfp]
    exact (scanLines_same _ _ _).2


/-! ## No report on a well-formed dump -/

theorem afterFrames_out (env : Env) (frames : List DumpFrame) (st : State) :
    (afterFrames env frames st).out = st.out := by
  induction frames generalizing st with
  | nil => rfl
  | cons fr frs ih =>
    rw [afterFrames, ih]
    exact (scanLines_same _ _ _).1.2.2.2.2.2.2.2

/-- C15, as the code has it: on a dump made of well-formed frames, all of
whose lines fit the line buffer and whose timestep, atom-count and box-bounds
sections stand in any order before the atom data, the main pass
prints no `unexpected data` message: every line that is not a marker is read
as part of the body of the marker before it, and the whole file is read. -/
theorem no_report_on_well_formed (env : Env) (N : Nat) (frames : List DumpFrame)
    (hwf : ∀ fr ∈ frames, fr.WellFormed N) :
    (mainPass env (dumpText frames)).out = [] ∧
    mainPass env (dumpText frames)
      = afterFrames env frames
          { discover env (dumpText frames) with fp := dumpText frames } := by
  have key : mainPass env (dumpText frames)
      = afterFrames env frames
          { discover env (dumpText frames) with fp := dumpText frames } := by
    by_cases hne : frames = []
    · subst hne
      exact run_eof env _ rfl
    · exact run_frames env N frames hwf _ (discover_dump env N frames hwf hne).1 rfl
  refine ⟨?_, key⟩
  rw [key, afterFrames_out]
  exact (discover_main env (dumpText frames)).2.2.2.2

/-- C15 on `frames3`, whose second frame begins with its box-bounds section:
nothing is reported. -/
theorem no_report_on_well_formed_witness :
    (mainPass env0 (dumpText frames3)).out = [] :=
  (no_report_on_well_formed env0 2 frames3 (by decide!)).1


/-! ## A box-bounds marker that is not recognised -/

theorem marker_other_box {l : List Char}
    (h : strncmp0 l "ITEM: BOX BOUNDS".toList 16 = true) :
    strncmp0 l "ITEM".toList 4 = true ∧
    strncmp0 l "ITEM: NUMBER OF ATOMS".toList 21 = false ∧
    strncmp0 l "ITEM: TIMESTEP".toList 14 = false ∧
    strncmp0 l "ITEM: ATOMS".toList 11 = false := by
  rw [strncmp0_iff _ _ _ (by decide)] at h
  refine ⟨?_, ?_, ?_, ?_⟩
  · rw [strncmp0_iff _ _ _ (by decide), take_of_take h 4 (by decide)]
    decide
  · cases hc : strncmp0 l "ITEM: NUMBER OF ATOMS".toList 21
    · rfl
    · rw [strncmp0_iff _ _ _ (by decide)] at hc
      have h1 := take_of_take h 7 (by decide)
      rw [take_of_take hc 7 (by decide)] at h1
      exact absurd h1 (by decide)
  · cases hc : strncmp0 l "ITEM: TIMESTEP".toList 14
    · rfl
    · rw [strncmp0_iff _ _ _ (by decide)] at hc
      have h1 := take_of_take h 7 (by decide)
      rw [take_of_take hc 7 (by decide)] at h1
      exact absurd h1 (by decide)
  · cases hc : strncmp0 l "ITEM: ATOMS".toList 11
    · rfl
    · rw [strncmp0_iff _ _ _ (by decide)] at hc
      have h1 := take_of_take h 7 (by decide)
      rw [take_of_take hc 7 (by decide)] at h1
      exact absurd h1 (by decide)

theorem mainStep_box_state (env : Env) (st : State)
    (h : strncmp0 st.line "ITEM: BOX BOUNDS pp pp pp".toList 25 = false) :
    (mainStep env st).box = st.box ∧ (mainStep env st).lammps_box = st.lammps_box := by
  unfold mainStep
  split_ifs with h0 h1 h2 h3 h4
  · exact ⟨(fgetsLine_same st).2.2.2.2.1, (fgetsLine_same st).2.2.2.1⟩
  · exact ⟨(fgetsLine_same st).2.2.2.2.1, (fgetsLine_same st).2.2.2.1⟩
  · rw [h] at h3
    exact absurd h3 (by simp)
  · exact ⟨(readAtoms_same _ _ st).2.2.2.2.1, (readAtoms_same _ _ st).2.2.2.1⟩
  · exact ⟨rfl, rfl⟩
  · exact ⟨rfl, rfl⟩

theorem run_stray (env : Env) (st : State) (c rest : List Char) (hc : FitsBuffer c)
    (hn : strncmp0 (buf c) "ITEM".toList 4 = false) (hfp : st.fp = textLine c ++ rest) :
    run env st = run env { st with line := buf c, fp := rest, out := st.out ++ [unexpected] } := by
  rw [run_line env st c rest hc hfp, mainStep_other env _ hn]


/-- C16: when the main loop comes to a box-bounds marker that does not begin
with `ITEM: BOX BOUNDS pp pp pp`, followed by three bound lines, it passes
over the marker without a message, reports each of the three lines as
unexpected data, and leaves every other variable as it was, the bounds and
the box among them. The bounds and the box are changed by no turn of the main
loop but the one at a recognised marker, they are zero when the main pass
starts, and the frame written at an atom-data marker has the box as it stands
and positions shifted by the lower bounds as they stand. In `dumpFF` the frame
has an all-zero box and the positions raw / 10; in `dumpTilt` the second frame
has the box and the shift of the first. -/
theorem unrecognised_box_ignored (env : Env) (st : State) (m b1 b2 b3 rest : List Char)
    (hm : FitsBuffer m) (hbox : strncmp0 (buf m) "ITEM: BOX BOUNDS".toList 16 = true)
    (hpp : strncmp0 (buf m) "ITEM: BOX BOUNDS pp pp pp".toList 25 = false)
    (h1 : FitsBuffer b1 ∧ strncmp0 (buf b1) "ITEM".toList 4 = false)
    (h2 : FitsBuffer b2 ∧ strncmp0 (buf b2) "ITEM".toList 4 = false)
    (h3 : FitsBuffer b3 ∧ strncmp0 (buf b3) "ITEM".toList 4 = false)
    (hfp : st.fp = textLine m ++ (textLine b1 ++ (textLine b2 ++ (textLine b3 ++ rest)))) :
    (mainStep env { st with line := buf m, fp := textLine b1 ++ (textLine b2 ++ (textLine b3 ++ rest)) }
      = { st with line := buf m, fp := textLine b1 ++ (textLine b2 ++ (textLine b3 ++ rest)) } ∧
     run env st
      = run env { st with
          line := buf b3, fp := rest,
          out := st.out ++ [unexpected] ++ [unexpected] ++ [unexpected] }) ∧
    (∀ s : State, strncmp0 s.line "ITEM: BOX BOUNDS pp pp pp".toList 25 = false →
      (mainStep env s).box = s.box ∧ (mainStep env s).lammps_box = s.lammps_box) ∧
    (∀ file, (discover env file).box = (fun _ _ => 0) ∧
      (discover env file).lammps_box = (fun _ => 0)) ∧
    (∀ s : State, strncmp0 s.line "ITEM: ATOMS".toList 11 = true →
      ∃ f, (mainStep env s).trj_out = s.trj_out ++ [f] ∧ f.box = s.box ∧
        ∀ (a : Nat) (k : Fin 3) (tok : List Char), a < s.natoms.toNat →
          tokenAt (strtok (atomLine a s)) (s.index_xuyuzuvxvyvz (posField k)) = some tok →
          ∃ r, f.x[a]? = some r ∧ r k = (atof tok - s.lammps_box (lowerBound k)) / 10) ∧
    ((framesWritten env0 dumpFF).map
        (fun f => ((List.finRange 3).map (fun i => (List.finRange 3).map (f.box i)),
          f.x.map (fun r => (r 0, r 1, r 2))))
      = [([[0, 0, 0], [0, 0, 0], [0, 0, 0]], [(6 / 10, 7 / 10, 8 / 10)])] ∧
     (mainPass env0 dumpFF).out = [unexpected, unexpected, unexpected] ∧
     (framesWritten env0 dumpTilt).map
        (fun f => ((List.finRange 3).map (fun i => (List.finRange 3).map (f.box i)),
          f.x.map (fun r => (r 0, r 1, r 2))))
      = [([[1, 0, 0], [0, 1, 0], [0, 0, 1]], [(1 / 10, 2 / 10, 3 / 10)]),
         ([[1, 0, 0], [0, 1, 0], [0, 0, 1]], [(4 / 10, 4 / 10, 4 / 10)])] ∧
     (mainPass env0 dumpTilt).out = [unexpected, unexpected, unexpected]) := by
  obtain ⟨m0, m1, m2, m4⟩ := marker_other_box hbox
  have hstep := mainStep_unknown env
    { st with line := buf m, fp := textLine b1 ++ (textLine b2 ++ (textLine b3 ++ rest)) }
    m0 m1 m2 hpp m4
  refine ⟨⟨hstep, ?_⟩, mainStep_box_state env,
    fun file => ⟨(discover_main env file).2.2.1, (discover_main env file).2.1⟩, ?_, by decide!⟩
  · rw [run_line env st m _ hm hfp, hstep]
    refine Eq.trans (run_stray env _ b1 _ h1.1 h1.2 rfl) ?_
    refine Eq.trans (run_stray env _ b2 _ h2.1 h2.2 rfl) ?_
    exact run_stray env _ b3 rest h3.1 h3.2 rfl
  · intro s hs
    have hnat : (readAtoms s.natoms.toNat 0 s).natoms = s.natoms := (readAtoms_same _ _ s).2.1
    refine ⟨currentFrame env (readAtoms s.natoms.toNat 0 s),
      ?_, (readAtoms_same _ _ s).2.2.2.2.1, ?_⟩
    · rw [mainStep_atoms env s hs]
      simp [writeFrame, (readAtoms_same s.natoms.toNat 0 s).2.2.2.2.2.2.1]
    · intro a k tok ha htok
      refine ⟨(readAtoms s.natoms.toNat 0 s).x a,
        (currentFrame_x env _ a (by rw [hnat]; exact ha)).1, ?_⟩
      rw [readAtoms_x, if_pos ha, htok]
      rfl

/-- C16 on the box-bounds section of `dumpFF`: the marker is passed over, the
three lines `5 15` are reported, and the loop goes on with what follows. -/
theorem unrecognised_box_ignored_witness :
    run env0 { init env0 with
        fp := "ITEM: BOX BOUNDS ff ff ff\n5 15\n5 15\n5 15\nITEM: ATOMS id xu\n".toList }
      = run env0 { init env0 with
          line := "5 15\n".toList, fp := "ITEM: ATOMS id xu\n".toList,
          out := [unexpected, unexpected, unexpected] } :=
  (unrecognised_box_ignored env0
    { init env0 with
        fp := "ITEM: BOX BOUNDS ff ff ff\n5 15\n5 15\n5 15\nITEM: ATOMS id xu\n".toList }
    "ITEM: BOX BOUNDS ff ff ff".toList "5 15".toList "5 15".toList "5 15".toList
    "ITEM: ATOMS id xu\n".toList (by decide) (by decide) (by decide) (by decide) (by decide)
    (by decide) (by decide)).1.2


/-! ## A discovery pass that comes to the end of the file -/

theorem discoverLoop_invariant (env : Env) (P : State → Prop)
    (hstep : ∀ st l rest, P st → P (discoverStep env { st with line := l, fp := rest })) :
    ∀ (n : Nat) (st : State), P st → P (discoverLoop env n st) := by
  intro n
  induction n with
  | zero => intro st h; exact h
  | succ n ih =>
    intro st h
    simp only [discoverLoop]
    cases hf : fgets st.fp with
    | none => exact h
    | some p =>
      simp only []
      split_ifs
      · exact hstep st p.1 p.2 h
      · exact ih _ (hstep st p.1 p.2 h)

theorem logged_fgetsLine (p : List TrrCall) (st : State) :
    logged p (fgetsLine st) = fgetsLine (logged p st) := by
  unfold fgetsLine
  show _ = match fgets st.fp with
    | none => logged p st
    | some (l, rest) => { logged p st with line := l, fp := rest }
  cases fgets st.fp <;> rfl

theorem logged_readAtoms (p : List TrrCall) (n j : Nat) (st : State) :
    logged p (readAtoms n j st) = readAtoms n j (logged p st) := by
  induction n generalizing j st with
  | zero => rfl
  | succ n ih =>
    simp only [readAtoms, readAtom]
    rw [ih, ← logged_fgetsLine]
    rfl

theorem logged_readBox (p : List TrrCall) (st : State) :
    logged p (readBox st) = readBox (logged p st) := by
  simp only [readBox, ← logged_fgetsLine]
  rfl

theorem logged_writeFrame (env : Env) (p : List TrrCall) (st : State) :
    logged p (writeFrame env st) = writeFrame env (logged p st) := by
  simp [logged, writeFrame, currentFrame]

theorem logged_mainStep (env : Env) (p : List TrrCall) (st : State) :
    logged p (mainStep env st) = mainStep env (logged p st) := by
  have e : (logged p st).line = st.line := rfl
  have n : (logged p st).natoms = st.natoms := rfl
  simp only [mainStep, e, n]
  split_ifs
  · rw [logged_fgetsLine]
  · rw [← logged_fgetsLine]
    rfl
  · rw [logged_readBox]
  · rw [logged_writeFrame, logged_readAtoms]
  · rfl
  · rfl

theorem logged_mainLoop (env : Env) (p : List TrrCall) (n : Nat) (st : State) :
    logged p (mainLoop env n st) = mainLoop env n (logged p st) := by
  induction n generalizing st with
  | zero => rfl
  | succ n ih =>
    have e : (logged p st).fp = st.fp := rfl
    simp only [mainLoop, e]
    cases fgets st.fp with
    | none => rfl
    | some q =>
      simp only []
      rw [ih, logged_mainStep]
      rfl

theorem fgetsLine_trr (st : State) : (fgetsLine st).trr = st.trr := by
  unfold fgetsLine
  cases fgets st.fp <;> rfl

theorem readAtoms_trr (n j : Nat) (st : State) : (readAtoms n j st).trr = st.trr := by
  induction n generalizing j st with
  | zero => rfl
  | succ n ih =>
    rw [readAtoms, ih]
    exact fgetsLine_trr st

theorem readBox_trr (st : State) : (readBox st).trr = st.trr := by
  show (fgetsLine (fgetsLine (fgetsLine st))).trr = _
  rw [fgetsLine_trr, fgetsLine_trr, fgetsLine_trr]

/-- The discovery pass makes no call of the TRR library. -/
theorem discover_trr (env : Env) (file : List Char) : (discover env file).trr = [] := by
  refine discoverLoop_invariant env (fun s => s.trr = []) (fun st l rest hst => ?_)
    file.length { init env with fp := file } rfl
  unfold discoverStep
  split_ifs
  · exact (fgetsLine_trr _).trans hst
  · exact hst
  · exact hst
  · exact hst

/-- In the main loop the library is called once for each frame, with the
handle that `gmx_trr_open` returned. -/
theorem mainStep_trr (env : Env) (st : State)
    (h : st.trr = st.trj_out.map (TrrCall.gmx_trr_write_frame env.gmx_trr_open)) :
    (mainStep env st).trr
      = (mainStep env st).trj_out.map (TrrCall.gmx_trr_write_frame env.gmx_trr_open) := by
  by_cases h4 : strncmp0 st.line "ITEM: ATOMS".toList 11 = true
  · rw [mainStep_atoms env st h4]
    simp [writeFrame, readAtoms_trr, (readAtoms_same _ _ st).2.2.2.2.2.2.1, h]
  · have e := (mainStep_trj env st).resolve_right (fun hh => h4 hh.1)
    rw [e, ← h]
    unfold mainStep
    split_ifs
    · exact fgetsLine_trr st
    · exact fgetsLine_trr st
    · exact readBox_trr st
    · rfl
    · rfl

theorem mainPass_trr (env : Env) (file : List Char) :
    (mainPass env file).trr
      = (framesWritten env file).map (TrrCall.gmx_trr_write_frame env.gmx_trr_open) :=
  mainLoop_invariant env
    (fun s => s.trr = s.trj_out.map (TrrCall.gmx_trr_write_frame env.gmx_trr_open))
    (fun st l rest hst => mainStep_trr env _ hst) file.length
    { discover env file with fp := file }
    (by simp [discover_trr, (discover_main env file).2.2.2.1])

/-- The final state of `main` on a file it can open is the state after the
main pass with the calls `gmx_trr_open` and `gmx_trr_close` added. -/
theorem main_state (env : Env) (file : List Char) :
    (main env (some file)).2
      = trrClose env (logged [TrrCall.gmx_trr_open] (mainPass env file)) := by
  have e : trrOpen { discover env file with fp := file }
      = logged [TrrCall.gmx_trr_open] { discover env file with fp := file } := by
    simp [trrOpen, logged, discover_trr]
  show trrClose env (run env (trrOpen _)) = _
  rw [e]
  unfold mainPass run
  rw [logged_mainLoop]
  rfl


/-! ## Lines that do not fit the line buffer -/

/-- C15, counterexample: the dump of `frameLong` is one frame with its
sections in the order timestep, atom count, box bounds, atom data, the atom
count 2 and two data lines, the first of which is 280 characters long. The
first data line fills the line buffer twice, so the second one is met by the
main loop outside every section and is reported as unexpected data. -/
theorem long_line_reported :
    frameLong.atoms.map List.length = [280, 34] ∧
    (∀ l ∈ frameLong.atoms, NL ∉ l) ∧
    sscanf_d (buf frameLong.countLine) = some 2 ∧
    (discover env0 (dumpText [frameLong])).natoms = 2 ∧
    (mainPass env0 (dumpText [frameLong])).out = [unexpected] := by
  decide!

/-- C3, counterexample: in the dump of `frameLong` the velocity columns are
bound to the columns 5, 6 and 7 and the data line of the second atom has the
tokens -0.1, -0.2 and -0.3 there, but the velocity written for the second atom
is (0, 0, 0), what its buffer slot held: the second call of `fgets` in the loop
over the atoms reads the end of the first atom's line, which is 280 characters
long. -/
theorem long_line_velocity :
    (discover env0 (dumpText [frameLong])).index_xuyuzuvxvyvz (velField 0) = 5 ∧
    (discover env0 (dumpText [frameLong])).index_xuyuzuvxvyvz (velField 1) = 6 ∧
    (discover env0 (dumpText [frameLong])).index_xuyuzuvxvyvz (velField 2) = 7 ∧
    frameLong.atoms[1]? = some "2 1 9.0 8.0 7.0 -0.1 -0.2 -0.3 0.5".toList ∧
    tokenAt (strtok (buf "2 1 9.0 8.0 7.0 -0.1 -0.2 -0.3 0.5".toList)) 5 = some "-0.1".toList ∧
    tokenAt (strtok (buf "2 1 9.0 8.0 7.0 -0.1 -0.2 -0.3 0.5".toList)) 6 = some "-0.2".toList ∧
    tokenAt (strtok (buf "2 1 9.0 8.0 7.0 -0.1 -0.2 -0.3 0.5".toList)) 7 = some "-0.3".toList ∧
    atof "-0.1".toList * 100 = -10 ∧
    (framesWritten env0 (dumpText [frameLong])).map
        (fun f => f.v.map (fun p => (p 0, p 1, p 2)))
      = [[(10, 20, 30), (0, 0, 0)]] := by
  decide!

/-- C14, counterexample: on the dump of `frameLong` the discovery pass fixes
the atom count 2, and the turn of the main loop at the atom-data marker, with
both data lines still to be read, makes its two calls of `fgets` on the first
data line alone, which is 280 characters long: the second data line is left in
the file, the second atom is made from the end of the first line, and the
main loop then reports the second data line. -/
theorem long_line_consumed :
    stLong.natoms = 2 ∧
    stLong.fp = textLine ("1 1 1.0 2.0 3.0 0.1 0.2 0.3 0.".toList ++ List.replicate 250 '0')
      ++ textLine "2 1 9.0 8.0 7.0 -0.1 -0.2 -0.3 0.5".toList ∧
    (mainStep env0 stLong).fp = textLine "2 1 9.0 8.0 7.0 -0.1 -0.2 -0.3 0.5".toList ∧
    atomLine 1 stLong = List.replicate 25 '0' ++ [NL] ∧
    (mainStep env0 stLong).trj_out.map (fun f => f.x.map (fun p => (p 0, p 1, p 2)))
      = [[(1 / 10, 2 / 10, 3 / 10), (0, 0, 0)]] ∧
    (mainPass env0 (dumpText [frameLong])).out = [unexpected] := by
  decide!


/-! ## A discovery pass that does not find both markers -/

/-- The main loop ends at the end of the file. -/
theorem mainLoop_end (env : Env) (n : Nat) (st : State) (hn : st.fp.length ≤ n) :
    (mainLoop env n st).fp = [] := by
  induction n generalizing st with
  | zero => exact List.eq_nil_of_length_eq_zero (Nat.le_zero.1 hn)
  | succ n ih =>
    simp only [mainLoop]
    cases hf : fgets st.fp with
    | none =>
      cases hfp : st.fp with
      | nil => rfl
      | cons c cs => rw [hfp] at hf; simp [fgets] at hf
    | some p =>
      obtain ⟨l, rest⟩ := p
      have h1 := fgets_length hf
      have h2 := mainStep_fp env { st with line := l, fp := rest }
      exact ih _ (by simp only [] at h2; omega)

/-- The library's calls of `parse_opt` end the process exactly when one of
them hands over a positional argument. -/
theorem argp_parse_none (calls : List (Key × List Char × Nat)) (a : arguments) :
    argp_parse calls a = none ↔ ∃ c ∈ calls, c.1 = Key.ARGP_KEY_ARG := by
  induction calls generalizing a with
  | nil => simp [argp_parse]
  | cons c rest ih =>
    obtain ⟨key, arg, n⟩ := c
    cases key <;> simp [argp_parse, parse_opt, ih]

/-- C12, counterexample: when the library hands the positional argument
`extra` to `parse_opt`, the process exits with the status 64 of `argp_usage`,
although the input file `traj.dump` can be opened; without the argument the
same run exits with 0. -/
theorem positional_argument_exit :
    files1 defaults.infile = some dump1 ∧
    (lammps2trr env0 files1
      [(Key.other, [], 0), (Key.ARGP_KEY_ARG, "extra".toList, 0)]).1 = 64 ∧
    (lammps2trr env0 files1 [(Key.other, [], 0), (Key.ARGP_KEY_END, [], 0)]).1 = 0 := by
  decide!

/-- C12, amended: `main` returns a non-zero status exactly when the input
file cannot be opened; it then returns 1 with nothing read, nothing printed
and no call of the TRR library. On a file it can open, both loops come to
their end within as many turns as the file has characters, the main loop at the
end of the file; the calls of the TRR library are `gmx_trr_open`, then one
`gmx_trr_write_frame` for each frame, then `gmx_trr_close`, the last two with
the handle that `gmx_trr_open` returned, which is not tested; and `main`
returns 0. When the library hands a positional argument to `parse_opt`, the
process ends with status 64 before the input is opened; when it hands none,
the process is `main` with the arguments of the command line. -/
theorem exit_status (env : Env) :
    (∀ infile, (main env infile).1 ≠ 0 ↔ infile = none) ∧
    (main env none = (1, init env) ∧ (init env).fp = [] ∧ (init env).line = [] ∧
      (init env).trj_out = [] ∧ (init env).trr = [] ∧ (init env).out = []) ∧
    (∀ file,
      (main env (some file)).1 = 0 ∧
      (main env (some file)).2.fp = [] ∧
      (∀ n, file.length ≤ n →
        discoverLoop env n { init env with fp := file } = discover env file) ∧
      (∀ n, file.length ≤ n →
        mainLoop env n { discover env file with fp := file } = mainPass env file) ∧
      (main env (some file)).2.trj_out = framesWritten env file ∧
      (main env (some file)).2.out = (mainPass env file).out ∧
      (main env (some file)).2.trr = TrrCall.gmx_trr_open ::
        ((framesWritten env file).map (TrrCall.gmx_trr_write_frame env.gmx_trr_open) ++
          [TrrCall.gmx_trr_close env.gmx_trr_open])) ∧
    (∀ files calls, (∃ c ∈ calls, c.1 = Key.ARGP_KEY_ARG) →
      lammps2trr env files calls = (EX_USAGE, init env) ∧
      (lammps2trr env files calls).1 ≠ 0) ∧
    (∀ files calls, (¬ ∃ c ∈ calls, c.1 = Key.ARGP_KEY_ARG) →
      ∃ a, argp_parse calls defaults = some a ∧
        lammps2trr env files calls = main { env with dt := a.dt } (files a.infile)) ∧
    ((main envNull (some dump1)).1 = 0 ∧ (main envNull (some dump1)).2.trr.length = 3) := by
  refine ⟨fun infile => ?_, ⟨rfl, rfl, rfl, rfl, rfl, rfl⟩, fun file => ?_, ?_, ?_, by decide!⟩
  · cases infile <;> simp [main]
  · refine ⟨rfl, ?_, fun n hn => ?_, fun n hn => ?_, ?_, ?_, ?_⟩
    · rw [main_state]
      exact mainLoop_end env _ _ (Nat.le_refl _)
    · exact discoverLoop_fuel env n file.length _ hn (Nat.le_refl _)
    · exact mainLoop_fuel env n file.length _ hn (Nat.le_refl _)
    · rw [main_state]
      rfl
    · rw [main_state]
      rfl
    · rw [main_state]
      show [TrrCall.gmx_trr_open] ++ (mainPass env file).trr ++ _ = _
      rw [mainPass_trr]
      simp
  · intro files calls hex
    have e : lammps2trr env files calls = (EX_USAGE, init env) := by
      simp [lammps2trr, (argp_parse_none calls defaults).2 hex]
    rw [e]
    exact ⟨rfl, by simp [EX_USAGE]⟩
  · intro files calls hne
    cases h : argp_parse calls defaults with
    | none => exact absurd ((argp_parse_none calls defaults).1 h) hne
    | some a => exact ⟨a, rfl, by simp [lammps2trr, h]⟩

end Lammps2trr
